import Mathlib

/-!
Verification development for the day-document meal-planning core
(src/lib/firestore.ts of the whattocook repository).

The TypeScript core is shallowly embedded: the Firestore collection is an
association list from document ids to day documents, every exported
operation of firestore.ts becomes a pure Lean function from the store to a
result together with the successor store, and the JavaScript primitives the
code relies on (parseInt, String.split, Date construction and rollover,
toISOString, padStart) are modelled as executable Lean functions on lists
of characters.  JavaScript machine integers do not overflow in any code
path embedded here (all arithmetic stays far below 2^53), so numbers are
modelled as Nat / Int directly.

Modelling conventions, stated once:
* `new Date(string)` parsing is modelled by jsParseDateChars, restricted to
  the ISO forms `YYYY-MM-DD` and `YYYY-MM-DDTHH:MM:SS` that this repository
  produces; every other string is treated as unparseable.  The server is
  assumed to run in the UTC timezone, so local time and toISOString agree.
* serverTimestamp() is modelled by an explicit `now` parameter.
* Timestamp resolution of stored documents (resolveTimestamp inside
  getAllMeals) is modelled at the store boundary: documents carry already
  normalized Int instants, so getAllMeals is the identity scan that
  attaches document ids, exactly like the TypeScript function.
-/

namespace WhatToCook

/-! ## JavaScript character and number primitives -/

/-- A decimal digit character, used to model number-to-string conversion.
Matches on the value modulo 10 so that the function is total. -/
def mkDigit (n : Nat) : Char :=
  match n % 10 with
  | 0 => '0' | 1 => '1' | 2 => '2' | 3 => '3' | 4 => '4'
  | 5 => '5' | 6 => '6' | 7 => '7' | 8 => '8' | _ => '9'

/-- Model of the regex character class backslash-d: an ASCII decimal digit. -/
def isDigitChar (c : Char) : Bool := 48 ≤ c.toNat && c.toNat ≤ 57

/-- Model of the JavaScript whitespace characters skipped by parseInt. -/
def isSpaceChar (c : Char) : Bool :=
  c.toNat = 32 || c.toNat = 9 || c.toNat = 10 || c.toNat = 13 || c.toNat = 12 || c.toNat = 11

/-- Numeric value of a digit character. -/
def digitVal (c : Char) : Nat := c.toNat - 48

/-- Value of a list of digit characters read in base 10. -/
def decValue (l : List Char) : Nat := l.foldl (fun a c => 10 * a + digitVal c) 0

/-- Model of JavaScript parseInt(s, 10): skip leading whitespace, accept an
optional sign, then read leading decimal digits; NaN (here: none) when no
digit follows. -/
def jsParseIntChars (l : List Char) : Option Int :=
  let l1 := l.dropWhile isSpaceChar
  match l1 with
  | '-' :: rest =>
    let ds := rest.takeWhile isDigitChar
    if ds.isEmpty then none else some (-(decValue ds : Int))
  | '+' :: rest =>
    let ds := rest.takeWhile isDigitChar
    if ds.isEmpty then none else some (decValue ds : Int)
  | _ =>
    let ds := l1.takeWhile isDigitChar
    if ds.isEmpty then none else some (decValue ds : Int)

/-- Decimal digits of a natural number, fuelled so that the kernel can
reduce it; natChars supplies sufficient fuel. -/
def natCharsAux (fuel : Nat) (n : Nat) : List Char :=
  match fuel with
  | 0 => []
  | f + 1 => if n < 10 then [mkDigit n] else natCharsAux f (n / 10) ++ [mkDigit (n % 10)]

/-- Model of JavaScript Number.prototype.toString() for natural numbers. -/
def natChars (n : Nat) : List Char := natCharsAux (n + 1) n

/-- Model of JavaScript Number.prototype.toString() for integers. -/
def intChars (i : Int) : List Char :=
  if i < 0 then '-' :: natChars (-i).toNat else natChars i.toNat

/-- The three characters produced by NaN.toString(). -/
def nanChars : List Char := ['N', 'a', 'N']

/-- Model of parseInt(s, 10).toString(). -/
def parseIntToStr (l : List Char) : List Char :=
  match jsParseIntChars l with
  | some v => intChars v
  | none => nanChars

/-- Model of String.prototype.padStart(2, Char.zero): prepend zeros until the
length is at least two. -/
def padStart2 (l : List Char) : List Char := List.replicate (2 - l.length) '0' ++ l

/-- Model of String.prototype.split(dash). -/
def splitOnDash : List Char → List (List Char)
  | [] => [[]]
  | c :: t =>
    if c = '-' then [] :: splitOnDash t
    else match splitOnDash t with
      | [] => [[c]]
      | h :: r => (c :: h) :: r

/-! ## Calendar arithmetic (proleptic Gregorian, as used by the JS Date) -/

/-- Gregorian leap-year rule. -/
def isLeapYear (y : Nat) : Bool := (y % 4 = 0 && y % 100 ≠ 0) || y % 400 = 0

/-- Number of days of month m (1-based) in year y. -/
def daysInMonth (y m : Nat) : Nat :=
  match m with
  | 2 => if isLeapYear y then 29 else 28
  | 4 => 30 | 6 => 30 | 9 => 30 | 11 => 30
  | _ => 31

/-- Cumulative day counts before each month in a non-leap year. -/
def monthOffsets : List Nat := [0, 31, 59, 90, 120, 151, 181, 212, 243, 273, 304, 334]

/-- Days contained in the years 1 .. y-1. -/
def daysBeforeYear (y : Nat) : Nat :=
  365 * (y - 1) + ((y - 1) / 4 + (y - 1) / 400 - (y - 1) / 100)

/-- Days contained in the months 1 .. m-1 of year y. -/
def daysBeforeMonth (y m : Nat) : Nat :=
  monthOffsets.getD (m - 1) 0 + (if 3 ≤ m && isLeapYear y then 1 else 0)

/-- Rata die day number of a civil date: day 1 is 0001-01-01. -/
def rataDie (y m d : Nat) : Nat := daysBeforeYear y + daysBeforeMonth y m + d

/-- Rata die number of the Unix epoch 1970-01-01. -/
def epochRataDie : Nat := 719163

/-- Milliseconds since the Unix epoch of midnight UTC on a civil date. -/
def msOfCivil (y m d : Nat) : Int := ((rataDie y m d : Int) - (epochRataDie : Int)) * 86400000

/-- The Sunday-indexed table of weekday names used by the migration. -/
def daysOfWeek : List String :=
  ["Sunday", "Monday", "Tuesday", "Wednesday", "Thursday", "Friday", "Saturday"]

/-- Model of Date.prototype.getDay composed with the weekday table: rata die
day 0 (the day before 0001-01-01) is a Sunday. -/
def dayOfWeekName (y m d : Nat) : String := daysOfWeek.getD (rataDie y m d % 7) ""

/-- Valid hour-minute-second tail of an ISO date-time string. -/
def hmsOk : List Char → Bool
  | [h1, h2, c1, n1, n2, c2, s1, s2] =>
    isDigitChar h1 && isDigitChar h2 && c1 = ':' && isDigitChar n1 && isDigitChar n2 &&
      c2 = ':' && isDigitChar s1 && isDigitChar s2 &&
      decValue [h1, h2] < 24 && decValue [n1, n2] < 60 && decValue [s1, s2] < 60
  | _ => false

/-- Valid optional time suffix of an ISO string: either nothing, or a capital
T followed by HH:MM:SS. -/
def timeTailOk : List Char → Bool
  | [] => true
  | c :: rest => c = 'T' && hmsOk rest

/-- Model of ECMAScript new Date(string) parsing, restricted to the ISO
forms `YYYY-MM-DD` and `YYYY-MM-DDTHH:MM:SS` that this repository produces;
any other string is treated as unparseable.  Returns the civil date. -/
def jsParseDateChars (l : List Char) : Option (Nat × Nat × Nat) :=
  match l with
  | c1 :: c2 :: c3 :: c4 :: c5 :: c6 :: c7 :: c8 :: c9 :: c10 :: rest =>
    if c5 = '-' ∧ c8 = '-' ∧
        isDigitChar c1 ∧ isDigitChar c2 ∧ isDigitChar c3 ∧ isDigitChar c4 ∧
        isDigitChar c6 ∧ isDigitChar c7 ∧ isDigitChar c9 ∧ isDigitChar c10 ∧
        timeTailOk rest then
      let y := decValue [c1, c2, c3, c4]
      let mo := decValue [c6, c7]
      let d := decValue [c9, c10]
      if 1 ≤ mo ∧ mo ≤ 12 ∧ 1 ≤ d ∧ d ≤ daysInMonth y mo then some (y, mo, d) else none
    else none
  | _ => none

/-- The characters appended by the migration before parsing a stored date:
the literal string T00:00:00. -/
def isoMidnight : List Char := ['T', '0', '0', ':', '0', '0', ':', '0', '0']

/-- Model of new Date(year, monthIndex, day) for 0-based monthIndex and
1 ≤ day ≤ 31 (the only values reachable here, since day comes from getDate):
month overflow carries into the year, and day overflow rolls into the next
month exactly as the JS Date normalizes it. -/
def jsMakeDate (cy cm d : Nat) : Nat × Nat × Nat :=
  let y := cy + cm / 12
  let m := cm % 12 + 1
  if d ≤ daysInMonth y m then (y, m, d)
  else if m = 12 then (y + 1, 1, d - 31)
  else (y, m + 1, d - daysInMonth y m)

/-- Model of Date.prototype.toISOString().split(sep-T)[0] for a midnight UTC
date: the ten characters YYYY-MM-DD. -/
def jsToISODateChars (y m d : Nat) : List Char :=
  [mkDigit (y / 1000), mkDigit (y / 100), mkDigit (y / 10), mkDigit y, '-',
   mkDigit (m / 10), mkDigit m, '-', mkDigit (d / 10), mkDigit d]

/-! ## getDayId (the KeyResolver) -/

/-- Embedding of getDayId from firestore.ts, on character lists.
Branch 1: a 1-2 digit input is parseInt-ed and zero padded.
Branch 2: an input with exactly three dash-separated segments has its third
segment parseInt-ed and zero padded.
Branch 3: otherwise generic date parsing is attempted; on success the
day-of-month is zero padded, on failure the input is returned unchanged. -/
def getDayIdChars (l : List Char) : List Char :=
  if l.all isDigitChar ∧ 1 ≤ l.length ∧ l.length ≤ 2 then
    padStart2 (parseIntToStr l)
  else
    let parts := splitOnDash l
    if parts.length = 3 then
      padStart2 (parseIntToStr (parts.getD 2 []))
    else
      match jsParseDateChars l with
      | some (_, _, d) => padStart2 (natChars d)
      | none => l

/-- Embedding of getDayId from firestore.ts on strings. -/
def getDayId (s : String) : String := ⟨getDayIdChars s.data⟩

/-! ## resolveTimestamp (the TimestampNormalizer) -/

/-- The runtime shapes a stored timestamp value can have, as discriminated
by resolveTimestamp: a falsy value (null, undefined, 0, the empty string),
a Firestore Timestamp exposing toDate(), a plain seconds record, a string,
or any other truthy value. -/
inductive TSValue where
  | falsy : TSValue
  | timestampObj : Int → TSValue
  | secondsObj : Int → TSValue
  | str : String → TSValue
  | other : TSValue
deriving DecidableEq

/-- Model of new Date(string) as an instant: milliseconds since the epoch on
parse success, none for an Invalid Date. -/
def jsNewDateMs (s : String) : Option Int :=
  match jsParseDateChars s.data with
  | some (y, m, d) => some (msOfCivil y m d)
  | none => none

/-- Embedding of resolveTimestamp from firestore.ts.  The result is an
instant: some ms for a valid Date, none for an Invalid Date.  The `now`
argument is the current clock reading used by new Date(). -/
def resolveTimestamp (value : TSValue) (now : Int) : Option Int :=
  match value with
  | .falsy => some now
  | .timestampObj ms => some ms
  | .secondsObj sec => some (sec * 1000)
  | .str s => if s.length = 0 then some now else jsNewDateMs s
  | .other => some now

/-! ## The data model -/

/-- Nested nutrient record of a meal item (types/meal.ts). -/
structure Nutrients where
  protein_g : Nat
  fiber_g : Nat
  carbs_g : Nat
  fat_g : Nat
deriving DecidableEq

/-- A meal item (types/meal.ts). -/
structure MealItem where
  item_name : String
  ingredients : List String
  recipe_url : String
  image_url : String
  calories : Nat
  prep_time_minutes : Nat
  is_vegetarian : Bool
  cooking_instructions : Option (List String)
  nutrients : Option Nutrients
deriving DecidableEq

/-- A per-user attendance record.  Each slot is an Option Bool because the
runtime data may omit a slot even inside an existing record; some true is
eating, some false is skipping, none is an absent field. -/
structure AttRec where
  breakfast : Option Bool
  lunch : Option Bool
  dinner : Option Bool
deriving DecidableEq

/-- The responsibility assignments of a day document; none is null/absent. -/
structure RespAssign where
  breakfastLunchId : Option String
  dinnerId : Option String
deriving DecidableEq

/-- A day document (types/meal.ts MealDocument without the id, which is the
association key in the store).  Meal items are optional because the runtime
checks their truthiness before use.  Timestamps are already normalized
instants (see the module docstring). -/
structure MealDoc where
  date : String
  day_of_week : String
  breakfast : Option MealItem
  lunch : Option MealItem
  dinner : Option MealItem
  total_calories : Nat
  attendance : List (String × AttRec)
  responsibility : RespAssign
  created_at : Int
  updated_at : Int
deriving DecidableEq

/-- The dailymenu collection: an association list from document id to day
document, in the iteration order of a collection scan. -/
abbrev Store := List (String × MealDoc)

/-- First-match lookup in an association list, the map access of the
document store. -/
def alistLookup {α : Type} (l : List (String × α)) (k : String) : Option α :=
  match l with
  | [] => none
  | (k', v) :: t => if k' = k then some v else alistLookup t k

/-- Set a key in an association list: replace the first occurrence in place,
or append a fresh entry, exactly like assigning a JS object key or setting a
Firestore document. -/
def alistSet {α : Type} (l : List (String × α)) (k : String) (v : α) : List (String × α) :=
  match l with
  | [] => [(k, v)]
  | (k', v') :: t => if k' = k then (k, v) :: t else (k', v') :: alistSet t k v

/-- Remove every entry with the given key, the document delete. -/
def eraseKey {α : Type} (l : List (String × α)) (k : String) : List (String × α) :=
  l.filter (fun e => e.1 != k)

/-! ## Batched writes -/

/-- One write inside a Firestore batch, as issued by this code base:
a document set, a full-field update (the migration update, whose payload
carries every document field), a responsibility-fields update (the bulk
assignment update), or a delete. -/
inductive BatchOp where
  | set : String → MealDoc → BatchOp
  | updateFull : String → MealDoc → BatchOp
  | updateResp : String → Option (Option String) → Option (Option String) → BatchOp
  | delete : String → BatchOp
deriving DecidableEq

/-- The document key an operation addresses. -/
def opKey : BatchOp → String
  | .set k _ => k
  | .updateFull k _ => k
  | .updateResp k _ _ => k
  | .delete k => k

/-- Replace a responsibility field when the update payload carries it. -/
def patchField (u : Option (Option String)) (old : Option String) : Option String :=
  u.getD old

/-- Apply one batched write.  Firestore rejects an update addressed to a
missing document, which fails the whole commit; set and delete always
succeed. -/
def applyOp (s : Store) (op : BatchOp) : Option Store :=
  match op with
  | .set k c => some (alistSet s k c)
  | .delete k => some (eraseKey s k)
  | .updateFull k c =>
    match alistLookup s k with
    | some _ => some (alistSet s k c)
    | none => none
  | .updateResp k bl dn =>
    match alistLookup s k with
    | some m =>
      some (alistSet s k
        { m with responsibility :=
            ⟨patchField bl m.responsibility.breakfastLunchId,
             patchField dn m.responsibility.dinnerId⟩ })
    | none => none

/-- Commit a batch: apply the writes in order; the commit is atomic, so a
single failing write fails the whole batch and the caller keeps the original
store. -/
def commitBatch (s : Store) (ops : List BatchOp) : Option Store :=
  match ops with
  | [] => some s
  | op :: rest =>
    match applyOp s op with
    | some s' => commitBatch s' rest
    | none => none

/-- The result record `{success, updated, error?}` returned by the bulk and
migration operations. -/
structure BulkResult where
  success : Bool
  updated : Nat
  error : Option String
deriving DecidableEq

/-! ## Store operations -/

/-- Embedding of getAllMeals: a full scan attaching document ids.  Documents
already carry normalized instants (module docstring), so the scan is the
identity on the association list. -/
def getAllMeals (s : Store) : List (String × MealDoc) := s

/-- The three meal slots. -/
inductive MSlot where
  | breakfast
  | lunch
  | dinner
deriving DecidableEq

/-- Read a slot of an attendance record. -/
def getSlot (r : AttRec) : MSlot → Option Bool
  | .breakfast => r.breakfast
  | .lunch => r.lunch
  | .dinner => r.dinner

/-- Assign a slot of an attendance record, leaving the siblings alone. -/
def setSlot (r : AttRec) : MSlot → Option Bool → AttRec
  | .breakfast, v => { r with breakfast := v }
  | .lunch, v => { r with lunch := v }
  | .dinner, v => { r with dinner := v }

/-- The default all-eating record created when a user has no attendance
record yet: literally the object with breakfast, lunch, dinner all true. -/
def defaultAttRec : AttRec := ⟨some true, some true, some true⟩

/-- Embedding of toggleMealAttendance from firestore.ts: resolve the key,
read the document (returning false without a write when it is missing),
compute the per-user record defaulting to all-eating, flip only the targeted
slot to the negation of isSkipping, and write the entire per-user record
back as one field. -/
def toggleMealAttendance (s : Store) (mealId : String) (mealType : MSlot)
    (userId : String) (isSkipping : Bool) : Bool × Store :=
  let docId := getDayId mealId
  match alistLookup s docId with
  | none => (false, s)
  | some m =>
    let userAtt := (alistLookup m.attendance userId).getD defaultAttRec
    let userAtt' := setSlot userAtt mealType (some (!isSkipping))
    (true, alistSet s docId { m with attendance := alistSet m.attendance userId userAtt' })

/-- The two responsibility slots. -/
inductive RSlot where
  | breakfastLunchId
  | dinnerId
deriving DecidableEq

/-- Model of the JS expression userId-or-null: the empty string is falsy and
collapses to null. -/
def jsOrNull (v : String) : Option String := if v = "" then none else some v

/-- Embedding of updateMealResponsibility from firestore.ts: resolve the
key and write exactly one nested responsibility field; a missing document
makes the underlying update throw, which is caught and reported as false. -/
def updateMealResponsibility (s : Store) (mealId : String) (slot : RSlot)
    (userId : Option String) : Bool × Store :=
  let docId := getDayId mealId
  match alistLookup s docId with
  | none => (false, s)
  | some m =>
    let v : Option String :=
      match userId with
      | none => none
      | some u => jsOrNull u
    let r := m.responsibility
    let r' :=
      match slot with
      | .breakfastLunchId => { r with breakfastLunchId := v }
      | .dinnerId => { r with dinnerId := v }
    (true, alistSet s docId { m with responsibility := r' })

/-- The partial update payload of the bulk responsibility operation; a none
field is absent (JS undefined) and left untouched on every target. -/
structure RespUpdates where
  breakfastLunchId : Option String
  dinnerId : Option String
deriving DecidableEq

/-- The batched writes one date contributes to the bulk responsibility
update: nothing when the payload carries no field, otherwise one update of
the present fields with empty strings collapsed to null. -/
def bulkItem (u : RespUpdates) (ds : String) : List BatchOp :=
  if u.breakfastLunchId = none ∧ u.dinnerId = none then []
  else [.updateResp (getDayId ds) (u.breakfastLunchId.map jsOrNull) (u.dinnerId.map jsOrNull)]

/-- Embedding of bulkUpdateMealResponsibility from firestore.ts.  An empty
date list is a no-op success; otherwise every date contributes its update to
one batch whose length is the attempted count, and an atomic commit either
persists all of them or fails, in which case the caught error reports
success false and updated 0 with the store unchanged. -/
def bulkUpdateMealResponsibility (s : Store) (dates : List String)
    (u : RespUpdates) : BulkResult × Store :=
  if dates.length = 0 then (⟨true, 0, none⟩, s)
  else
    let ops := dates.flatMap (bulkItem u)
    match commitBatch s ops with
    | some t => (⟨true, ops.length, none⟩, t)
    | none => (⟨false, 0, some "bulk update failed"⟩, s)

/-! ## The month-rollover migration -/

/-- The batched writes one scanned document contributes to the migration.
A document whose stored date does not parse throws inside the per-item try
(getDate yields NaN and toISOString throws), is logged and skipped.
Otherwise the day-of-month is reprojected onto the current month, the clean
payload copies every field while re-deriving date, day_of_week and the
timestamps, and the document is updated in place when its id already equals
the new zero-padded day id, or deleted and re-created under the new id. -/
def migItem (cy cm : Nat) (now : Int) (e : String × MealDoc) : List BatchOp :=
  match jsParseDateChars (e.2.date.data ++ isoMidnight) with
  | none => []
  | some (_, _, d) =>
    let nd := jsMakeDate cy cm d
    let newDateString : String := ⟨jsToISODateChars nd.1 nd.2.1 nd.2.2⟩
    let newDocId : String := ⟨padStart2 (natChars d)⟩
    let clean : MealDoc :=
      { e.2 with
        date := newDateString
        day_of_week := dayOfWeekName nd.1 nd.2.1 nd.2.2
        updated_at := now }
    if e.1 = newDocId then [.updateFull newDocId clean]
    else [.delete e.1, .set newDocId clean]

/-- The migration batch over a scan, together with the attempted count: the
loop increments the counter exactly for the items that do not throw. -/
def migOps (cy cm : Nat) (now : Int) (meals : List (String × MealDoc)) :
    List BatchOp × Nat :=
  (meals.flatMap (migItem cy cm now),
   meals.countP (fun e => (jsParseDateChars (e.2.date.data ++ isoMidnight)).isSome))

/-- Embedding of updateMealDatesToCurrentMonth from firestore.ts, with the
clock made explicit: cy and cm are getFullYear() and the 0-based getMonth()
of the run, now is the commit-time server timestamp.  An empty scan fails
fast; otherwise one batch is committed atomically, reporting the attempted
count on success and success false with updated 0 on a failed commit. -/
def updateMealDatesToCurrentMonth (cy cm : Nat) (now : Int) (s : Store) :
    BulkResult × Store :=
  let meals := getAllMeals s
  if meals.length = 0 then (⟨false, 0, some "No meals found in database"⟩, s)
  else
    match commitBatch s (migOps cy cm now meals).1 with
    | some t => (⟨true, (migOps cy cm now meals).2, none⟩, t)
    | none => (⟨false, 0, some "Unknown error occurred"⟩, s)

/-! ## getUserMeals (the UserMealAggregator) -/

/-- One entry of the assigned or attending lists of getUserMeals. -/
structure PlateEntry where
  date : String
  mealType : String
  meal : MealItem
deriving DecidableEq

/-- The single-entry list a push guarded by the truthiness of an optional
meal item produces. -/
def itemEntry (d label : String) : Option MealItem → List PlateEntry
  | none => []
  | some it => [⟨d, label, it⟩]

/-- The assigned entries one scanned document contributes for a user:
breakfast and lunch share the breakfastLunchId assignee, dinner has its
own. -/
def assignedOf (userId : String) (m : MealDoc) : List PlateEntry :=
  (if m.responsibility.breakfastLunchId = some userId then
    itemEntry m.date "Breakfast" m.breakfast ++ itemEntry m.date "Lunch" m.lunch
   else []) ++
  (if m.responsibility.dinnerId = some userId then itemEntry m.date "Dinner" m.dinner
   else [])

/-- The attending entries one scanned document contributes for a user.  When
the user has an attendance record, a slot is pushed only when that slot is
truthy (explicitly true) and the meal item is present; when the user has no
record at all, every present meal item is pushed. -/
def attendingOf (userId : String) (m : MealDoc) : List PlateEntry :=
  match alistLookup m.attendance userId with
  | some r =>
    (if r.breakfast = some true then itemEntry m.date "Breakfast" m.breakfast else []) ++
      (if r.lunch = some true then itemEntry m.date "Lunch" m.lunch else []) ++
      (if r.dinner = some true then itemEntry m.date "Dinner" m.dinner else [])
  | none =>
    itemEntry m.date "Breakfast" m.breakfast ++ itemEntry m.date "Lunch" m.lunch ++
      itemEntry m.date "Dinner" m.dinner

/-- Sort key of the date comparator: new Date(date).getTime(), with the
arbitrary comparator value of an unparseable date pinned to 0 (no claim
depends on the relative order of unparseable dates). -/
def msOfDateStr (s : String) : Int :=
  match jsParseDateChars s.data with
  | some (y, m, d) => msOfCivil y m d
  | none => 0

/-- The date comparator of getUserMeals as a total boolean order. -/
def entryLE (a b : PlateEntry) : Bool := decide (msOfDateStr a.date ≤ msOfDateStr b.date)

/-- Ordered insertion for the stable sort. -/
def insEntry (x : PlateEntry) : List PlateEntry → List PlateEntry
  | [] => [x]
  | y :: t => if entryLE x y then x :: y :: t else y :: insEntry x t

/-- Stable insertion sort modelling Array.prototype.sort. -/
def isortEntries : List PlateEntry → List PlateEntry
  | [] => []
  | x :: t => insEntry x (isortEntries t)

/-- Embedding of getUserMeals from firestore.ts, with the clock made
explicit: today is the ISO date string of the current day.  Scans all
documents, collects assigned and attending entries, sorts both by date and
keeps only assigned duties from today on. -/
def getUserMeals (s : Store) (today : String) (userId : String) :
    List PlateEntry × List PlateEntry :=
  let all := getAllMeals s
  let assigned := all.flatMap (fun e => assignedOf userId e.2)
  let attending := all.flatMap (fun e => attendingOf userId e.2)
  ((isortEntries assigned).filter (fun it => decide (today ≤ it.date)), isortEntries attending)

/-! ## Derived notions used by the specification statements -/

/-- The meal item a day document stores for a slot. -/
def slotItem (m : MealDoc) : MSlot → Option MealItem
  | .breakfast => m.breakfast
  | .lunch => m.lunch
  | .dinner => m.dinner

/-- The display label getUserMeals attaches to a slot. -/
def slotLabel : MSlot → String
  | .breakfast => "Breakfast"
  | .lunch => "Lunch"
  | .dinner => "Dinner"

/-- A batched write that removes or overwrites the document at a key. -/
def opKills (op : BatchOp) (k : String) : Prop :=
  (∃ c, op = BatchOp.updateFull k c) ∨ op = BatchOp.delete k

/-- Every write of the batch either deletes, or installs a payload satisfying
P under its target key (responsibility updates excluded: the migration never
issues them). -/
def opGood (P : String × MealDoc → Prop) : BatchOp → Prop
  | .set k c => P (k, c)
  | .updateFull k c => P (k, c)
  | .updateResp _ _ _ => False
  | .delete _ => True

/-- A responsibility value that is never the stored-empty-string: some of a
non-empty identifier or null. -/
def respOkR (r : RespAssign) : Prop :=
  r.breakfastLunchId ≠ some "" ∧ r.dinnerId ≠ some ""

/-- The store-wide invariant of claim C9: no document carries an empty
string in a responsibility field. -/
def respOkStore (s : Store) : Prop := ∀ e ∈ s, respOkR e.2.responsibility

/-- A batched write that cannot introduce an empty-string responsibility
assignment. -/
def respSafeOp : BatchOp → Prop
  | .set _ c => respOkR c.responsibility
  | .updateFull _ c => respOkR c.responsibility
  | .updateResp _ bl dn =>
    (∀ v, bl = some v → v ≠ some "") ∧ (∀ v, dn = some v → v ≠ some "")
  | .delete _ => True

/-- A stored document whose date parses and whose day-of-month exists in the
month the migration run targets (the hypothesis of the amended claim C2). -/
def validEntry (cy cm : Nat) (e : String × MealDoc) : Prop :=
  ∃ y mo d, jsParseDateChars (e.2.date.data ++ isoMidnight) = some (y, mo, d) ∧
    d ≤ daysInMonth (cy + cm / 12) (cm % 12 + 1)

/-- The clean payload the migration writes for a document parsed to
day-of-month d, when the day exists in the month the run targets. -/
def migClean (cy cm : Nat) (now : Int) (m : MealDoc) (d : Nat) : MealDoc :=
  { m with
    date := ⟨jsToISODateChars (cy + cm / 12) (cm % 12 + 1) d⟩
    day_of_week := dayOfWeekName (cy + cm / 12) (cm % 12 + 1) d
    updated_at := now }

/-- A document in post-migration canonical form for a run anchored at cy/cm:
keyed by its zero-padded day-of-month, dated in the target month. -/
def canonEntry (cy cm : Nat) (e : String × MealDoc) : Prop :=
  ∃ d, 1 ≤ d ∧ d ≤ daysInMonth (cy + cm / 12) (cm % 12 + 1) ∧
    e.1 = (⟨padStart2 (natChars d)⟩ : String) ∧
    e.2.date = (⟨jsToISODateChars (cy + cm / 12) (cm % 12 + 1) d⟩ : String)

/-- The observable identity of a store the idempotence claim compares:
document keys together with their date fields, in scan order. -/
def keysDates (s : Store) : List (String × String) := s.map (fun e => (e.1, e.2.date))

/-! ## Concrete fixtures used by counterexamples and witnesses -/

/-- A minimal meal item. -/
def sampleItem : MealItem := ⟨"dal", ["lentils"], "", "", 250, 30, true, none, none⟩

/-- A day document still stored under the historical full-date id, with the
day-of-month 31 that February lacks: the document of the C1 scenario. -/
def migDoc : MealDoc :=
  { date := "2025-01-31"
    day_of_week := "Friday"
    breakfast := some sampleItem
    lunch := none
    dinner := none
    total_calories := 250
    attendance := []
    responsibility := ⟨none, none⟩
    created_at := 5
    updated_at := 5 }

/-- What the migration run of the C1 scenario actually writes under the new
key "31": the date rolled into March. -/
def migDocMigrated : MealDoc :=
  { migDoc with date := "2026-03-03", day_of_week := "Tuesday", updated_at := 777 }

/-- A fully populated day document where user u2 has an attendance record
whose breakfast slot is absent (the C4 counterexample). -/
def c4doc : MealDoc :=
  { date := "2026-02-01"
    day_of_week := "Sunday"
    breakfast := some sampleItem
    lunch := some sampleItem
    dinner := some sampleItem
    total_calories := 750
    attendance := [("u2", ⟨none, some true, some true⟩)]
    responsibility := ⟨none, none⟩
    created_at := 5
    updated_at := 5 }

/-- A day document where user u1 explicitly skips breakfast (the stored
boolean is false): the C5 counterexample. -/
def c5doc : MealDoc :=
  { c4doc with attendance := [("u1", ⟨some false, some true, some true⟩)] }

/-- Day documents for the migration commit-failure witness: two scanned
documents under the same id "05", one of which must be renamed to "03"
(deleting "05") while the other is updated in place at "05". -/
def dupDocA : MealDoc := { migDoc with date := "2025-01-03" }

/-- Second document of the duplicate-key migration fixture. -/
def dupDocB : MealDoc := { migDoc with date := "2026-02-05" }

/-- A well-formed already-valid document used by the C2 witness. -/
def c2wDoc : MealDoc := { migDoc with date := "2026-02-05", day_of_week := "Thursday" }

/-- Spec-side notion for the claim C3 statement, written from the words of
the specification: a string of the literal shape YYYY-MM-DD (four digits,
dash, two digits, dash, two digits). -/
def specYmdShape (l : List Char) : Bool :=
  match l with
  | [a, b, c, d, e, f, g, h, i, j] =>
    isDigitChar a && isDigitChar b && isDigitChar c && isDigitChar d && e = '-' &&
      isDigitChar f && isDigitChar g && h = '-' && isDigitChar i && isDigitChar j
  | _ => false

/-! ## Character and digit lemmas -/

theorem char_eq_of_toNat (a b : Char) (h : a.toNat = b.toNat) : a = b :=
  Char.ext (UInt32.ext h)

theorem toNat_mkDigit (n : Nat) : (mkDigit n).toNat = 48 + n % 10 := by
  unfold mkDigit
  have h : n % 10 < 10 := Nat.mod_lt _ (by omega)
  set k := n % 10 with hk
  interval_cases k <;> rfl

theorem digitVal_mkDigit (n : Nat) : digitVal (mkDigit n) = n % 10 := by
  rw [digitVal, toNat_mkDigit]
  omega

theorem isDigitChar_mkDigit (n : Nat) : isDigitChar (mkDigit n) = true := by
  simp only [isDigitChar, toNat_mkDigit, Bool.and_eq_true, decide_eq_true_eq]
  omega

theorem mkDigit_digitVal (c : Char) (h : isDigitChar c = true) :
    mkDigit (digitVal c) = c := by
  apply char_eq_of_toNat
  simp only [isDigitChar, Bool.and_eq_true, decide_eq_true_eq] at h
  rw [toNat_mkDigit]
  simp only [digitVal]
  omega

theorem digitVal_le (c : Char) (h : isDigitChar c = true) : digitVal c ≤ 9 := by
  simp only [isDigitChar, Bool.and_eq_true, decide_eq_true_eq] at h
  simp only [digitVal]
  omega

theorem isSpaceChar_of_digit (c : Char) (h : isDigitChar c = true) :
    isSpaceChar c = false := by
  simp only [isDigitChar, Bool.and_eq_true, decide_eq_true_eq] at h
  simp only [isSpaceChar, Bool.or_eq_false_iff, decide_eq_false_iff_not]
  omega

theorem digit_ne_dash (c : Char) (h : isDigitChar c = true) : c ≠ '-' := by
  intro he
  subst he
  exact absurd h (by decide)

theorem digit_ne_plus (c : Char) (h : isDigitChar c = true) : c ≠ '+' := by
  intro he
  subst he
  exact absurd h (by decide)

theorem decValue_one (c : Char) : decValue [c] = digitVal c := by
  simp [decValue]

theorem decValue_two (c1 c2 : Char) :
    decValue [c1, c2] = 10 * digitVal c1 + digitVal c2 := by
  simp [decValue]

theorem decValue_four (c1 c2 c3 c4 : Char) :
    decValue [c1, c2, c3, c4] =
      1000 * digitVal c1 + 100 * digitVal c2 + 10 * digitVal c3 + digitVal c4 := by
  simp [decValue]
  ring

/-! ## natChars and padStart lemmas -/

theorem natCharsAux_small (f n : Nat) (hf : 0 < f) (hn : n < 10) :
    natCharsAux f n = [mkDigit n] := by
  cases f with
  | zero => omega
  | succ f => simp [natCharsAux, hn]

theorem natChars_small (n : Nat) (hn : n < 10) : natChars n = [mkDigit n] :=
  natCharsAux_small _ _ (by omega) hn

theorem natChars_two (n : Nat) (h10 : 10 ≤ n) (h100 : n < 100) :
    natChars n = [mkDigit (n / 10), mkDigit (n % 10)] := by
  unfold natChars natCharsAux
  rw [if_neg (by omega)]
  rw [natCharsAux_small n (n / 10) (by omega) (by omega)]
  rfl

theorem padStart2_one (c : Char) : padStart2 [c] = ['0', c] := by
  simp [padStart2, List.replicate]

theorem padStart2_two (c1 c2 : Char) : padStart2 [c1, c2] = [c1, c2] := by
  simp [padStart2]

/-! ## parseInt and split lemmas -/

theorem takeWhile_all {p : Char → Bool} (l : List Char) (h : l.all p = true) :
    l.takeWhile p = l := by
  induction l with
  | nil => rfl
  | cons c t ih =>
    simp only [List.all_cons, Bool.and_eq_true] at h
    simp [List.takeWhile_cons, h.1, ih h.2]

theorem jsParseInt_digits (l : List Char) (hne : l ≠ []) (h : l.all isDigitChar = true) :
    jsParseIntChars l = some (decValue l : Int) := by
  cases l with
  | nil => exact absurd rfl hne
  | cons c t =>
    simp only [List.all_cons, Bool.and_eq_true] at h
    have hdrop : (c :: t).dropWhile isSpaceChar = c :: t := by
      simp [List.dropWhile_cons, isSpaceChar_of_digit c h.1]
    have hall : (c :: t).all isDigitChar = true := by simp [h.1, h.2]
    simp only [jsParseIntChars, hdrop]
    split
    · rename_i rest heq
      injection heq with h1 _
      exact absurd h1 (digit_ne_dash c h.1)
    · rename_i rest heq
      injection heq with h1 _
      exact absurd h1 (digit_ne_plus c h.1)
    · rw [takeWhile_all _ hall]
      simp

theorem splitOnDash_nodash (a : List Char) (ha : ∀ c ∈ a, c ≠ '-') :
    splitOnDash a = [a] := by
  induction a with
  | nil => rfl
  | cons c t ih =>
    simp only [splitOnDash]
    rw [if_neg (ha c (by simp))]
    rw [ih (fun x hx => ha x (by simp [hx]))]

theorem splitOnDash_append (a r : List Char) (ha : ∀ c ∈ a, c ≠ '-') :
    splitOnDash (a ++ '-' :: r) = a :: splitOnDash r := by
  induction a with
  | nil => simp [splitOnDash]
  | cons c t ih =>
    simp only [List.cons_append, splitOnDash]
    rw [if_neg (ha c (by simp))]
    simp only [List.append_eq]
    rw [ih (fun x hx => ha x (by simp [hx]))]

/-! ## Association list lemmas -/

theorem alistLookup_set_self {α : Type} (l : List (String × α)) (k : String) (v : α) :
    alistLookup (alistSet l k v) k = some v := by
  induction l with
  | nil => simp [alistSet, alistLookup]
  | cons e t ih =>
    by_cases h : e.1 = k
    · simp [alistSet, alistLookup, h]
    · simp only [alistSet]
      rw [if_neg (by simpa using h)]
      simp only [alistLookup]
      rw [if_neg (by simpa using h)]
      exact ih

theorem alistLookup_set_other {α : Type} (l : List (String × α)) (k k' : String) (v : α)
    (h : k' ≠ k) : alistLookup (alistSet l k v) k' = alistLookup l k' := by
  induction l with
  | nil =>
    simp only [alistSet, alistLookup]
    rw [if_neg (fun he => h he.symm)]
  | cons e t ih =>
    by_cases he : e.1 = k
    · simp only [alistSet]
      rw [if_pos (by simpa using he)]
      simp only [alistLookup]
      rw [if_neg (fun hx => h hx.symm), if_neg (by rw [he]; exact fun hx => h hx.symm)]
    · simp only [alistSet]
      rw [if_neg (by simpa using he)]
      simp only [alistLookup]
      by_cases hk' : e.1 = k'
      · simp [hk']
      · rw [if_neg (by simpa using hk'), if_neg (by simpa using hk')]
        exact ih

theorem alistSet_set {α : Type} (l : List (String × α)) (k : String) (v w : α) :
    alistSet (alistSet l k v) k w = alistSet l k w := by
  induction l with
  | nil => simp [alistSet]
  | cons e t ih =>
    by_cases h : e.1 = k
    · simp [alistSet, h]
    · simp only [alistSet]
      rw [if_neg (by simpa using h)]
      simp only [alistSet]
      rw [if_neg (by simpa using h), if_neg (by simpa using h)]
      rw [ih]

theorem alistSet_eq_self {α : Type} (l : List (String × α)) (k : String) (v : α)
    (h : alistLookup l k = some v) : alistSet l k v = l := by
  induction l with
  | nil => simp [alistLookup] at h
  | cons e t ih =>
    by_cases he : e.1 = k
    · simp only [alistLookup] at h
      rw [if_pos (by simpa using he)] at h
      obtain ⟨k1, v1⟩ := e
      simp only at he
      simp only [Option.some.injEq] at h
      simp [alistSet, he, h]
    · simp only [alistLookup] at h
      rw [if_neg (by simpa using he)] at h
      simp only [alistSet]
      rw [if_neg (by simpa using he)]
      rw [ih h]

theorem alistLookup_mem {α : Type} (l : List (String × α)) (k : String) (v : α)
    (h : alistLookup l k = some v) : (k, v) ∈ l := by
  induction l with
  | nil => simp [alistLookup] at h
  | cons e t ih =>
    simp only [alistLookup] at h
    by_cases he : e.1 = k
    · rw [if_pos (by simpa using he)] at h
      obtain ⟨k1, v1⟩ := e
      simp only at he
      simp only [Option.some.injEq] at h
      simp [he, h]
    · rw [if_neg (by simpa using he)] at h
      simp [ih h]

theorem mem_alistLookup_isSome {α : Type} (l : List (String × α)) (k : String) (v : α)
    (h : (k, v) ∈ l) : (alistLookup l k).isSome = true := by
  induction l with
  | nil => simp at h
  | cons e t ih =>
    simp only [alistLookup]
    by_cases he : e.1 = k
    · rw [if_pos (by simpa using he)]
      rfl
    · rw [if_neg (by simpa using he)]
      rcases List.mem_cons.mp h with h1 | h1
      · rw [← h1] at he
        simp at he
      · exact ih h1

theorem mem_alistSet {α : Type} (l : List (String × α)) (k : String) (v : α)
    (e : String × α) (h : e ∈ alistSet l k v) : e = (k, v) ∨ e ∈ l := by
  induction l with
  | nil => simpa [alistSet] using h
  | cons e1 t ih =>
    simp only [alistSet] at h
    by_cases he : e1.1 = k
    · rw [if_pos (by simpa using he)] at h
      rcases List.mem_cons.mp h with h1 | h1
      · exact Or.inl h1
      · exact Or.inr (List.mem_cons.mpr (Or.inr h1))
    · rw [if_neg (by simpa using he)] at h
      rcases List.mem_cons.mp h with h1 | h1
      · exact Or.inr (List.mem_cons.mpr (Or.inl h1))
      · rcases ih h1 with h2 | h2
        · exact Or.inl h2
        · exact Or.inr (List.mem_cons.mpr (Or.inr h2))

theorem mem_eraseKey {α : Type} (l : List (String × α)) (k : String) (e : String × α)
    (h : e ∈ eraseKey l k) : e ∈ l ∧ e.1 ≠ k := by
  simp only [eraseKey] at h
  have := List.mem_filter.mp h
  refine ⟨this.1, ?_⟩
  simpa using this.2

theorem keys_alistSet_nodup {α : Type} (l : List (String × α)) (k : String) (v : α)
    (h : (l.map Prod.fst).Nodup) : ((alistSet l k v).map Prod.fst).Nodup := by
  induction l with
  | nil => simp [alistSet]
  | cons e t ih =>
    simp only [List.map_cons, List.nodup_cons] at h
    by_cases he : e.1 = k
    · simp only [alistSet]
      rw [if_pos (by simpa using he)]
      simp only [List.map_cons, List.nodup_cons]
      rw [← he]
      exact ⟨h.1, h.2⟩
    · simp only [alistSet]
      rw [if_neg (by simpa using he)]
      simp only [List.map_cons, List.nodup_cons]
      refine ⟨?_, ih h.2⟩
      intro hmem
      rcases List.mem_map.mp hmem with ⟨x, hx, hxe⟩
      rcases mem_alistSet t k v x hx with h1 | h1
      · rw [h1] at hxe
        exact he hxe.symm
      · exact h.1 (List.mem_map.mpr ⟨x, h1, hxe⟩)

theorem keys_eraseKey_nodup {α : Type} (l : List (String × α)) (k : String)
    (h : (l.map Prod.fst).Nodup) : ((eraseKey l k).map Prod.fst).Nodup := by
  simp only [eraseKey]
  exact List.Nodup.sublist ((List.filter_sublist l).map Prod.fst) h

theorem alistLookup_eraseKey_other {α : Type} (l : List (String × α)) (k k' : String)
    (h : k' ≠ k) : alistLookup (eraseKey l k) k' = alistLookup l k' := by
  induction l with
  | nil => rfl
  | cons e t ih =>
    simp only [eraseKey, List.filter_cons]
    by_cases he : e.1 = k
    · rw [if_neg (by simp [he])]
      simp only [alistLookup]
      rw [if_neg (by rw [he]; exact fun hx => h hx.symm)]
      exact ih
    · rw [if_pos (by simpa using he)]
      simp only [alistLookup]
      by_cases hk' : e.1 = k'
      · simp [hk']
      · rw [if_neg (by simpa using hk'), if_neg (by simpa using hk')]
        exact ih

theorem alistLookup_unique {α : Type} (l : List (String × α)) (k : String) (a b : α)
    (hnd : (l.map Prod.fst).Nodup) (ha : (k, a) ∈ l) (hb : (k, b) ∈ l) : a = b := by
  induction l with
  | nil => simp at ha
  | cons e t ih =>
    simp only [List.map_cons, List.nodup_cons] at hnd
    rcases List.mem_cons.mp ha with h1 | h1 <;> rcases List.mem_cons.mp hb with h2 | h2
    · have h3 : (k, a) = (k, b) := h1.trans h2.symm
      injection h3 with _ hab
    · exact absurd (List.mem_map.mpr ⟨(k, b), h2, by rw [← h1]⟩) hnd.1
    · exact absurd (List.mem_map.mpr ⟨(k, a), h1, by rw [← h2]⟩) hnd.1
    · exact ih hnd.2 h1 h2

/-! ## ISO date printing and parsing lemmas -/

theorem daysInMonth_le (y m : Nat) : daysInMonth y m ≤ 31 := by
  unfold daysInMonth
  split
  · split <;> omega
  all_goals omega

theorem jsParseDate_iso (y m d : Nat) (tail : List Char)
    (hy : y < 10000) (hm1 : 1 ≤ m) (hm2 : m ≤ 12) (hd1 : 1 ≤ d)
    (hd2 : d ≤ daysInMonth y m) (htail : timeTailOk tail = true) :
    jsParseDateChars (jsToISODateChars y m d ++ tail) = some (y, m, d) := by
  have hdm := daysInMonth_le y m
  have hm100 : m < 100 := by omega
  have hd100 : d < 100 := by omega
  simp only [jsToISODateChars, List.cons_append, List.nil_append]
  simp only [jsParseDateChars]
  rw [if_pos (by simp [isDigitChar_mkDigit, htail])]
  have hyv : decValue [mkDigit (y / 1000), mkDigit (y / 100), mkDigit (y / 10), mkDigit y] = y := by
    rw [decValue_four]
    simp only [digitVal_mkDigit]
    omega
  have hmv : decValue [mkDigit (m / 10), mkDigit m] = m := by
    rw [decValue_two]
    simp only [digitVal_mkDigit]
    omega
  have hdv : decValue [mkDigit (d / 10), mkDigit d] = d := by
    rw [decValue_two]
    simp only [digitVal_mkDigit]
    omega
  simp only [hyv, hmv, hdv]
  rw [if_pos ⟨hm1, hm2, hd1, hd2⟩]

theorem jsParseDate_valid (l : List Char) (y m d : Nat)
    (h : jsParseDateChars l = some (y, m, d)) :
    y < 10000 ∧ 1 ≤ m ∧ m ≤ 12 ∧ 1 ≤ d ∧ d ≤ daysInMonth y m := by
  unfold jsParseDateChars at h
  split at h
  · rename_i c1 c2 c3 c4 c5 c6 c7 c8 c9 c10 rest
    split at h
    · rename_i hcond
      dsimp only at h
      split at h
      · rename_i hrange
        simp only [Option.some.injEq, Prod.mk.injEq] at h
        obtain ⟨hy, hm, hd⟩ := h
        subst hy hm hd
        refine ⟨?_, hrange.1, hrange.2.1, hrange.2.2.1, hrange.2.2.2⟩
        rw [decValue_four]
        have b1 := digitVal_le c1 (by tauto)
        have b2 := digitVal_le c2 (by tauto)
        have b3 := digitVal_le c3 (by tauto)
        have b4 := digitVal_le c4 (by tauto)
        omega
      · exact absurd h (by simp)
    · exact absurd h (by simp)
  · exact absurd h (by simp)

theorem timeTailOk_isoMidnight : timeTailOk isoMidnight = true := by decide

theorem timeTailOk_nil : timeTailOk [] = true := rfl

/-! ## Commit lemmas -/

theorem applyOp_cons (k : String) (v : MealDoc) (op : BatchOp) (s : Store)
    (h : opKey op ≠ k) :
    applyOp ((k, v) :: s) op = (applyOp s op).map (fun t => (k, v) :: t) := by
  cases op with
  | set k' c =>
    simp only [opKey] at h
    simp only [applyOp, alistSet]
    rw [if_neg (fun he => h he.symm)]
    rfl
  | delete k' =>
    simp only [opKey] at h
    simp only [applyOp, eraseKey, List.filter_cons]
    rw [if_pos (by simpa using Ne.symm h)]
    rfl
  | updateFull k' c =>
    simp only [opKey] at h
    simp only [applyOp, alistLookup]
    rw [if_neg (fun he => h he.symm)]
    cases alistLookup s k' with
    | none => rfl
    | some m =>
      simp only [alistSet]
      rw [if_neg (fun he => h he.symm)]
      rfl
  | updateResp k' bl dn =>
    simp only [opKey] at h
    simp only [applyOp, alistLookup]
    rw [if_neg (fun he => h he.symm)]
    cases alistLookup s k' with
    | none => rfl
    | some m =>
      simp only [alistSet]
      rw [if_neg (fun he => h he.symm)]
      rfl

theorem commitBatch_cons_untouched (k : String) (v : MealDoc) (ops : List BatchOp) :
    ∀ s : Store, (∀ op ∈ ops, opKey op ≠ k) →
      commitBatch ((k, v) :: s) ops = (commitBatch s ops).map (fun t => (k, v) :: t) := by
  induction ops with
  | nil => intro s _; rfl
  | cons op rest ih =>
    intro s h
    simp only [commitBatch]
    rw [applyOp_cons k v op s (h op (by simp))]
    cases happ : applyOp s op with
    | none => rfl
    | some s' =>
      simp only [Option.map_some]
      exact ih s' (fun o ho => h o (by simp [ho]))

theorem applyOp_nodup (s : Store) (op : BatchOp) (t : Store)
    (h : applyOp s op = some t) (hnd : (s.map Prod.fst).Nodup) :
    (t.map Prod.fst).Nodup := by
  cases op with
  | set k c =>
    simp only [applyOp, Option.some.injEq] at h
    rw [← h]
    exact keys_alistSet_nodup s k c hnd
  | delete k =>
    simp only [applyOp, Option.some.injEq] at h
    rw [← h]
    exact keys_eraseKey_nodup s k hnd
  | updateFull k c =>
    simp only [applyOp] at h
    cases hl : alistLookup s k with
    | none => rw [hl] at h; exact absurd h (by simp)
    | some m =>
      rw [hl] at h
      simp only [Option.some.injEq] at h
      rw [← h]
      exact keys_alistSet_nodup s k c hnd
  | updateResp k bl dn =>
    simp only [applyOp] at h
    cases hl : alistLookup s k with
    | none => rw [hl] at h; exact absurd h (by simp)
    | some m =>
      rw [hl] at h
      simp only [Option.some.injEq] at h
      rw [← h]
      exact keys_alistSet_nodup s k _ hnd

theorem commitBatch_nodup (ops : List BatchOp) :
    ∀ s t : Store, commitBatch s ops = some t → (s.map Prod.fst).Nodup →
      (t.map Prod.fst).Nodup := by
  induction ops with
  | nil =>
    intro s t h hnd
    simp only [commitBatch, Option.some.injEq] at h
    rw [← h]
    exact hnd
  | cons op rest ih =>
    intro s t h hnd
    simp only [commitBatch] at h
    cases happ : applyOp s op with
    | none => rw [happ] at h; exact absurd h (by simp)
    | some s' =>
      rw [happ] at h
      exact ih s' t h (applyOp_nodup s op s' happ hnd)

theorem commitBatch_canon (P : String × MealDoc → Prop) (ops : List BatchOp) :
    ∀ s t : Store, (s.map Prod.fst).Nodup →
      (∀ op ∈ ops, opGood P op) →
      (∀ e ∈ s, P e ∨ ∃ op ∈ ops, opKills op e.1) →
      commitBatch s ops = some t → ∀ e ∈ t, P e := by
  induction ops with
  | nil =>
    intro s t _ _ hcover h e he
    simp only [commitBatch, Option.some.injEq] at h
    rw [← h] at he
    rcases hcover e he with h1 | ⟨op, hop, _⟩
    · exact h1
    · simp at hop
  | cons op rest ih =>
    intro s t hnd hgood hcover h
    simp only [commitBatch] at h
    cases happ : applyOp s op with
    | none => rw [happ] at h; exact absurd h (by simp)
    | some s' =>
      rw [happ] at h
      have hnd' := applyOp_nodup s op s' happ hnd
      refine ih s' t hnd' (fun o ho => hgood o (by simp [ho])) ?_ h
      intro e he
      have hgoodop := hgood op (by simp)
      cases op with
      | set k c =>
        simp only [applyOp, Option.some.injEq] at happ
        rw [← happ] at he
        rcases mem_alistSet s k c e he with h1 | h1
        · rw [h1]; exact Or.inl hgoodop
        · rcases hcover e h1 with h2 | ⟨o, ho, hk⟩
          · exact Or.inl h2
          · rcases List.mem_cons.mp ho with h3 | h3
            · rw [h3] at hk
              rcases hk with ⟨c', hc'⟩ | hc'
              · simp at hc'
              · simp at hc'
            · exact Or.inr ⟨o, h3, hk⟩
      | updateFull k c =>
        simp only [applyOp] at happ
        cases hl : alistLookup s k with
        | none => rw [hl] at happ; exact absurd happ (by simp)
        | some m =>
          rw [hl] at happ
          simp only [Option.some.injEq] at happ
          rw [← happ] at he
          rcases mem_alistSet s k c e he with h1 | h1
          · rw [h1]; exact Or.inl hgoodop
          · rcases hcover e h1 with h2 | ⟨o, ho, hk⟩
            · exact Or.inl h2
            · rcases List.mem_cons.mp ho with h3 | h3
              · -- the witness was the consumed head update on key k, so e has
                -- key k; with Nodup keys it must be the freshly written (k, c)
                rw [h3] at hk
                have hkey : e.1 = k := by
                  rcases hk with ⟨c', hc'⟩ | hc'
                  · injection hc' with hk1 _
                    exact hk1.symm
                  · exact absurd hc' (by simp)
                have hnd2 := keys_alistSet_nodup s k c hnd
                have heq : e = (k, e.2) := by
                  obtain ⟨e1, e2⟩ := e
                  simp only at hkey
                  rw [hkey]
                have hmem : (k, c) ∈ alistSet s k c :=
                  alistLookup_mem _ _ _ (alistLookup_set_self s k c)
                have hec : e.2 = c :=
                  alistLookup_unique (alistSet s k c) k e.2 c hnd2 (by rw [← heq]; exact he) hmem
                rw [heq, hec]
                exact Or.inl hgoodop
              · exact Or.inr ⟨o, h3, hk⟩
      | updateResp k bl dn =>
        simp only [opGood] at hgoodop
      | delete k =>
        simp only [applyOp, Option.some.injEq] at happ
        rw [← happ] at he
        have hmem := mem_eraseKey s k e he
        rcases hcover e hmem.1 with h2 | ⟨o, ho, hk⟩
        · exact Or.inl h2
        · rcases List.mem_cons.mp ho with h3 | h3
          · rw [h3] at hk
            rcases hk with ⟨c', hc'⟩ | hc'
            · exact absurd hc' (by simp)
            · injection hc' with hk1
              exact absurd hk1.symm hmem.2
          · exact Or.inr ⟨o, h3, hk⟩

/-! ## getDayId computation lemmas -/

theorem parseIntToStr_digits (l : List Char) (hne : l ≠ []) (h : l.all isDigitChar = true) :
    parseIntToStr l = natChars (decValue l) := by
  simp only [parseIntToStr, jsParseInt_digits l hne h, intChars]
  rw [if_neg (by omega)]
  simp

theorem getDayIdChars_one (c : Char) (h : isDigitChar c = true) :
    getDayIdChars [c] = ['0', c] := by
  have hv := digitVal_le c h
  unfold getDayIdChars
  rw [if_pos (by simp [h])]
  rw [parseIntToStr_digits [c] (by simp) (by simp [h])]
  rw [decValue_one, natChars_small _ (by omega), mkDigit_digitVal c h, padStart2_one]

theorem getDayIdChars_two (c1 c2 : Char) (h1 : isDigitChar c1 = true)
    (h2 : isDigitChar c2 = true) : getDayIdChars [c1, c2] = [c1, c2] := by
  have hv1 := digitVal_le c1 h1
  have hv2 := digitVal_le c2 h2
  unfold getDayIdChars
  rw [if_pos (by simp [h1, h2])]
  rw [parseIntToStr_digits [c1, c2] (by simp) (by simp [h1, h2])]
  rw [decValue_two]
  by_cases hz : digitVal c1 = 0
  · have hc1 : c1 = '0' := by
      rw [← mkDigit_digitVal c1 h1, hz]
      rfl
    rw [hz]
    rw [natChars_small _ (by omega)]
    have : mkDigit (10 * 0 + digitVal c2) = c2 := by
      rw [Nat.mul_zero, Nat.zero_add]
      exact mkDigit_digitVal c2 h2
    rw [this, padStart2_one, hc1]
  · rw [natChars_two _ (by omega) (by omega)]
    have hdiv : (10 * digitVal c1 + digitVal c2) / 10 = digitVal c1 := by omega
    have hmod : (10 * digitVal c1 + digitVal c2) % 10 = digitVal c2 := by omega
    rw [hdiv, hmod, mkDigit_digitVal c1 h1, mkDigit_digitVal c2 h2, padStart2_two]

theorem getDayIdChars_iso (y1 y2 y3 y4 m1 m2 d1 d2 : Char)
    (hy1 : isDigitChar y1 = true) (hy2 : isDigitChar y2 = true)
    (hy3 : isDigitChar y3 = true) (hy4 : isDigitChar y4 = true)
    (hm1 : isDigitChar m1 = true) (hm2 : isDigitChar m2 = true)
    (hd1 : isDigitChar d1 = true) (hd2 : isDigitChar d2 = true) :
    getDayIdChars [y1, y2, y3, y4, '-', m1, m2, '-', d1, d2] = [d1, d2] := by
  have hv1 := digitVal_le d1 hd1
  have hv2 := digitVal_le d2 hd2
  unfold getDayIdChars
  rw [if_neg (by simp)]
  have e1 : [y1, y2, y3, y4, '-', m1, m2, '-', d1, d2] =
      [y1, y2, y3, y4] ++ '-' :: ([m1, m2] ++ '-' :: [d1, d2]) := rfl
  have hsp : splitOnDash [y1, y2, y3, y4, '-', m1, m2, '-', d1, d2] =
      [[y1, y2, y3, y4], [m1, m2], [d1, d2]] := by
    rw [e1]
    rw [splitOnDash_append _ _ (by
      intro c hc
      simp only [List.mem_cons, List.not_mem_nil, or_false] at hc
      rcases hc with rfl | rfl | rfl | rfl
      · exact digit_ne_dash _ hy1
      · exact digit_ne_dash _ hy2
      · exact digit_ne_dash _ hy3
      · exact digit_ne_dash _ hy4)]
    rw [splitOnDash_append _ _ (by
      intro c hc
      simp only [List.mem_cons, List.not_mem_nil, or_false] at hc
      rcases hc with rfl | rfl
      · exact digit_ne_dash _ hm1
      · exact digit_ne_dash _ hm2)]
    rw [splitOnDash_nodash _ (by
      intro c hc
      simp only [List.mem_cons, List.not_mem_nil, or_false] at hc
      rcases hc with rfl | rfl
      · exact digit_ne_dash _ hd1
      · exact digit_ne_dash _ hd2)]
  rw [hsp]
  rw [if_pos (by simp)]
  show padStart2 (parseIntToStr [d1, d2]) = [d1, d2]
  rw [parseIntToStr_digits [d1, d2] (by simp) (by simp [hd1, hd2])]
  rw [decValue_two]
  by_cases hz : digitVal d1 = 0
  · have hc1 : d1 = '0' := by
      rw [← mkDigit_digitVal d1 hd1, hz]
      rfl
    rw [hz]
    rw [natChars_small _ (by omega)]
    have : mkDigit (10 * 0 + digitVal d2) = d2 := by
      rw [Nat.mul_zero, Nat.zero_add]
      exact mkDigit_digitVal d2 hd2
    rw [this, padStart2_one, hc1]
  · rw [natChars_two _ (by omega) (by omega)]
    have hdiv : (10 * digitVal d1 + digitVal d2) / 10 = digitVal d1 := by omega
    have hmod : (10 * digitVal d1 + digitVal d2) % 10 = digitVal d2 := by omega
    rw [hdiv, hmod, mkDigit_digitVal d1 hd1, mkDigit_digitVal d2 hd2, padStart2_two]

/-! ## Slot, entry and sort lemmas -/

theorem string_mk_data (s : String) : (⟨s.data⟩ : String) = s := by
  obtain ⟨l⟩ := s
  rfl

theorem getSlot_setSlot_self (r : AttRec) (sl : MSlot) (v : Option Bool) :
    getSlot (setSlot r sl v) sl = v := by
  cases sl <;> rfl

theorem getSlot_setSlot_other (r : AttRec) (sl sl' : MSlot) (v : Option Bool)
    (h : sl' ≠ sl) : getSlot (setSlot r sl v) sl' = getSlot r sl' := by
  cases sl <;> cases sl' <;> first | rfl | exact absurd rfl h

theorem setSlot_setSlot (r : AttRec) (sl : MSlot) (v w : Option Bool) :
    setSlot (setSlot r sl v) sl w = setSlot r sl w := by
  cases sl <;> rfl

theorem setSlot_eq_self (r : AttRec) (sl : MSlot) (v : Option Bool)
    (h : getSlot r sl = v) : setSlot r sl v = r := by
  obtain ⟨b, l, d⟩ := r
  cases sl <;> simp only [getSlot] at h <;> simp [setSlot, h]

theorem mem_itemEntry (d label : String) (o : Option MealItem) (x : PlateEntry) :
    x ∈ itemEntry d label o ↔ ∃ it, o = some it ∧ x = ⟨d, label, it⟩ := by
  cases o with
  | none => simp [itemEntry]
  | some it => simp [itemEntry]

theorem mem_insEntry (x y : PlateEntry) (l : List PlateEntry) :
    x ∈ insEntry y l ↔ x = y ∨ x ∈ l := by
  induction l with
  | nil => simp [insEntry]
  | cons z t ih =>
    simp only [insEntry]
    split
    · simp
    · simp only [List.mem_cons, ih]
      tauto

theorem mem_ite_nil {c : Prop} [Decidable c] (l : List PlateEntry) (x : PlateEntry)
    (h : x ∈ (if c then l else [])) : x ∈ l := by
  split at h
  · exact h
  · simp at h

theorem mem_isortEntries (x : PlateEntry) (l : List PlateEntry) :
    x ∈ isortEntries l ↔ x ∈ l := by
  induction l with
  | nil => simp [isortEntries]
  | cons y t ih =>
    simp only [isortEntries, mem_insEntry, List.mem_cons, ih]

/-! ## Claim C1 -/

/-- C1, counterexample.  At the claim's own scenario (document with date and
id 2025-01-31, migration run with currentYear 2026 and currentMonth 1) the
code does not produce newDate 2026-02-28 or newKey 28: no batched write
addresses key 28, no resulting document carries the date 2026-02-28, and the
document set after the run holds only key 31. -/
theorem claim1_counterexample :
    alistLookup (updateMealDatesToCurrentMonth 2026 1 777 [("2025-01-31", migDoc)]).2
        "28" = none ∧
    (∀ e ∈ (updateMealDatesToCurrentMonth 2026 1 777 [("2025-01-31", migDoc)]).2,
      e.2.date ≠ "2026-02-28") ∧
    (∀ op ∈ (migOps 2026 1 777 [("2025-01-31", migDoc)]).1, opKey op ≠ "28") := by
  decide

/-- C1, amended.  Migrating a document with date 2025-01-31 and id
2025-01-31 during February 2026 (currentYear 2026, currentMonth 1) produces
newDate 2026-03-03 (the JS Date rolls day 31 of February into March), newKey
31 (the zero-padded day-of-month of the old date), and performs a delete of
document 2025-01-31 plus a set of document 31 as two operations within one
batch; the run succeeds with updated count 1. -/
theorem claim1_theorem :
    (migOps 2026 1 777 [("2025-01-31", migDoc)]).1 =
      [BatchOp.delete "2025-01-31", BatchOp.set "31" migDocMigrated] ∧
    migDocMigrated.date = "2026-03-03" ∧
    updateMealDatesToCurrentMonth 2026 1 777 [("2025-01-31", migDoc)] =
      (⟨true, 1, none⟩, [("31", migDocMigrated)]) := by
  decide

/-! ## Claim C3 -/

/-- C3, counterexample.  The input a-b-c matches neither a 1-2 digit number,
nor the YYYY-MM-DD shape, nor a generically parseable date, yet getDayId
returns NaN instead of the input unchanged: the split branch fires on any
three dash-separated segments and parseInt of the third segment is NaN. -/
theorem claim3_counterexample :
    (¬("a-b-c".data.all isDigitChar = true ∧ 1 ≤ "a-b-c".data.length ∧
        "a-b-c".data.length ≤ 2)) ∧
    specYmdShape "a-b-c".data = false ∧
    jsParseDateChars "a-b-c".data = none ∧
    getDayId "a-b-c" = "NaN" ∧ ("NaN" : String) ≠ "a-b-c" := by
  decide

/-- C3, amended.  getDayId is a pure total function (it is defined as one),
and for every input string that matches neither a 1-2 digit number, nor an
input with exactly three dash-separated segments (the condition the code
actually tests, rather than the YYYY-MM-DD shape), nor a generically
parseable date, it returns the input string unchanged. -/
theorem claim3_theorem (s : String)
    (h1 : ¬(s.data.all isDigitChar = true ∧ 1 ≤ s.data.length ∧ s.data.length ≤ 2))
    (h2 : (splitOnDash s.data).length ≠ 3)
    (h3 : jsParseDateChars s.data = none) :
    getDayId s = s := by
  unfold getDayId getDayIdChars
  rw [if_neg h1, if_neg h2, h3]

/-- C3, witness: the theorem applied to the input hello, which getDayId
returns unchanged. -/
theorem claim3_witness :
    (¬("hello".data.all isDigitChar = true ∧ 1 ≤ "hello".data.length ∧
        "hello".data.length ≤ 2)) ∧
    (splitOnDash "hello".data).length ≠ 3 ∧
    jsParseDateChars "hello".data = none ∧
    getDayId "hello" = "hello" :=
  ⟨by decide, by decide, by decide,
    claim3_theorem "hello" (by decide) (by decide) (by decide)⟩

/-! ## Claim C6 -/

/-- C6, counterexample.  bulkAssignResponsibility on an empty store with one
date computes an attempted count of 1 (one update in the batch), the commit
fails because the update addresses a missing document, and the returned
result reports updatedCount 0, not the attempted count 1 the claim
asserts. -/
theorem claim6_counterexample :
    (["05"].flatMap (bulkItem ⟨some "u1", none⟩)).length = 1 ∧
    bulkUpdateMealResponsibility [] ["05"] ⟨some "u1", none⟩ =
      (⟨false, 0, some "bulk update failed"⟩, []) := by
  decide

/-- C6, amended.  When the final batch commit fails in
bulkAssignResponsibility or migrateToCurrentMonth, the returned result
reports success false and updatedCount 0 - the persisted count, not the
attempted count - and the store is left unchanged. -/
theorem claim6_theorem :
    (∀ (s : Store) (dates : List String) (u : RespUpdates),
      dates.length ≠ 0 → commitBatch s (dates.flatMap (bulkItem u)) = none →
      bulkUpdateMealResponsibility s dates u =
        (⟨false, 0, some "bulk update failed"⟩, s)) ∧
    (∀ (cy cm : Nat) (now : Int) (s : Store),
      (getAllMeals s).length ≠ 0 →
      commitBatch s (migOps cy cm now (getAllMeals s)).1 = none →
      updateMealDatesToCurrentMonth cy cm now s =
        (⟨false, 0, some "Unknown error occurred"⟩, s)) := by
  constructor
  · intro s dates u h1 h2
    simp only [bulkUpdateMealResponsibility]
    rw [if_neg h1, h2]
  · intro cy cm now s h1 h2
    simp only [updateMealDatesToCurrentMonth]
    rw [if_neg h1, h2]

/-- C6, witness: the theorem applied to a failing bulk assignment on an
empty store and to a failing migration over a store with a duplicated id. -/
theorem claim6_witness :
    (["07"] : List String).length ≠ 0 ∧
    commitBatch [] ((["07"] : List String).flatMap (bulkItem ⟨none, some "u2"⟩)) = none ∧
    bulkUpdateMealResponsibility [] ["07"] ⟨none, some "u2"⟩ =
      (⟨false, 0, some "bulk update failed"⟩, []) ∧
    (getAllMeals [("05", dupDocA), ("05", dupDocB)]).length ≠ 0 ∧
    commitBatch [("05", dupDocA), ("05", dupDocB)]
      (migOps 2026 1 777 (getAllMeals [("05", dupDocA), ("05", dupDocB)])).1 = none ∧
    updateMealDatesToCurrentMonth 2026 1 777 [("05", dupDocA), ("05", dupDocB)] =
      (⟨false, 0, some "Unknown error occurred"⟩, [("05", dupDocA), ("05", dupDocB)]) :=
  ⟨by decide, by decide,
    claim6_theorem.1 [] ["07"] ⟨none, some "u2"⟩ (by decide) (by decide),
    by decide, by decide,
    claim6_theorem.2 2026 1 777 [("05", dupDocA), ("05", dupDocB)] (by decide) (by decide)⟩

/-! ## Claim C7 -/

/-- C7, counterexample.  An unparseable string input does not yield the
current time: resolveTimestamp hands every non-empty string to new Date and
returns the Invalid Date instant, not the current clock reading 1234. -/
theorem claim7_counterexample :
    resolveTimestamp (TSValue.str "not-a-real-date") 1234 = none ∧
    (none : Option Int) ≠ some 1234 := by
  decide

/-- C7, amended.  resolveTimestamp returns the current time for a missing or
falsy value and for a value of unrecognized shape, converts timestamp and
seconds records, and hands every non-empty string to Date parsing, so an
unparseable string yields an invalid instant rather than the current
time. -/
theorem claim7_theorem :
    (∀ t : Int, resolveTimestamp TSValue.falsy t = some t) ∧
    (∀ t : Int, resolveTimestamp TSValue.other t = some t) ∧
    (∀ t ms : Int, resolveTimestamp (TSValue.timestampObj ms) t = some ms) ∧
    (∀ t sec : Int, resolveTimestamp (TSValue.secondsObj sec) t = some (sec * 1000)) ∧
    (∀ (t : Int) (s : String), s.length ≠ 0 → jsParseDateChars s.data = none →
      resolveTimestamp (TSValue.str s) t = none) := by
  refine ⟨fun t => rfl, fun t => rfl, fun t ms => rfl, fun t sec => rfl, ?_⟩
  intro t s h1 h2
  simp only [resolveTimestamp]
  rw [if_neg h1]
  simp only [jsNewDateMs, h2]

/-- C7, witness: the theorem applied to the falsy value, an unrecognized
value, and a concrete unparseable non-empty string. -/
theorem claim7_witness :
    resolveTimestamp TSValue.falsy 99 = some 99 ∧
    resolveTimestamp TSValue.other 99 = some 99 ∧
    ("definitely?not?a?date" : String).length ≠ 0 ∧
    jsParseDateChars ("definitely?not?a?date" : String).data = none ∧
    resolveTimestamp (TSValue.str "definitely?not?a?date") 99 = none :=
  ⟨claim7_theorem.1 99, claim7_theorem.2.1 99, by decide, by decide,
    claim7_theorem.2.2.2.2 99 "definitely?not?a?date" (by decide) (by decide)⟩

/-! ## Claim C10 -/

/-- C10.  For every key, slot, user and skipping flag, toggleMealAttendance
returns false and performs no write when the day document for the resolved
key does not exist: the store is returned unchanged and no attendance record
is created. -/
theorem claim10_theorem (s : Store) (mealId : String) (slot : MSlot)
    (uid : String) (b : Bool) (h : alistLookup s (getDayId mealId) = none) :
    toggleMealAttendance s mealId slot uid b = (false, s) := by
  simp [toggleMealAttendance, h]

/-- C10, witness: toggling on an empty store leaves it unchanged and reports
false. -/
theorem claim10_witness :
    alistLookup ([] : Store) (getDayId "05") = none ∧
    toggleMealAttendance [] "05" MSlot.breakfast "u1" true = (false, []) :=
  ⟨by decide, claim10_theorem [] "05" MSlot.breakfast "u1" true (by decide)⟩

/-! ## Claim C8 -/

/-- C8.  Every 1-digit numeric string resolves to itself zero-padded to two
digits, every 2-digit numeric string resolves to itself, and every
YYYY-MM-DD input resolves to its (already two digit) day segment; hence
2026-01-31 and 31 both resolve to 31, and 1 and 01 both resolve to 01. -/
theorem claim8_theorem :
    (∀ c : Char, isDigitChar c = true → getDayId ⟨[c]⟩ = ⟨['0', c]⟩) ∧
    (∀ c1 c2 : Char, isDigitChar c1 = true → isDigitChar c2 = true →
      getDayId ⟨[c1, c2]⟩ = ⟨[c1, c2]⟩) ∧
    (∀ y1 y2 y3 y4 m1 m2 d1 d2 : Char,
      isDigitChar y1 = true → isDigitChar y2 = true → isDigitChar y3 = true →
      isDigitChar y4 = true → isDigitChar m1 = true → isDigitChar m2 = true →
      isDigitChar d1 = true → isDigitChar d2 = true →
      getDayId ⟨[y1, y2, y3, y4, '-', m1, m2, '-', d1, d2]⟩ = ⟨[d1, d2]⟩) := by
  refine ⟨?_, ?_, ?_⟩
  · intro c h
    show (⟨getDayIdChars [c]⟩ : String) = ⟨['0', c]⟩
    rw [getDayIdChars_one c h]
  · intro c1 c2 h1 h2
    show (⟨getDayIdChars [c1, c2]⟩ : String) = ⟨[c1, c2]⟩
    rw [getDayIdChars_two c1 c2 h1 h2]
  · intro y1 y2 y3 y4 m1 m2 d1 d2 hy1 hy2 hy3 hy4 hm1 hm2 hd1 hd2
    show (⟨getDayIdChars [y1, y2, y3, y4, '-', m1, m2, '-', d1, d2]⟩ : String) = ⟨[d1, d2]⟩
    rw [getDayIdChars_iso y1 y2 y3 y4 m1 m2 d1 d2 hy1 hy2 hy3 hy4 hm1 hm2 hd1 hd2]

/-- C8, witness: the theorem applied to the four inputs the specification
lists: 2026-01-31 and 31 resolve to 31, and 1 and 01 resolve to 01. -/
theorem claim8_witness :
    getDayId "2026-01-31" = "31" ∧ getDayId "31" = "31" ∧
    getDayId "1" = "01" ∧ getDayId "01" = "01" := by
  have h := claim8_theorem
  refine ⟨?_, ?_, ?_, ?_⟩
  · have e1 : ("2026-01-31" : String) = ⟨['2', '0', '2', '6', '-', '0', '1', '-', '3', '1']⟩ := by
      decide
    have e2 : ("31" : String) = ⟨['3', '1']⟩ := by decide
    rw [e1, e2]
    exact h.2.2 '2' '0' '2' '6' '0' '1' '3' '1' (by decide) (by decide) (by decide)
      (by decide) (by decide) (by decide) (by decide) (by decide)
  · have e1 : ("31" : String) = ⟨['3', '1']⟩ := by decide
    rw [e1]
    exact h.2.1 '3' '1' (by decide) (by decide)
  · have e1 : ("1" : String) = ⟨['1']⟩ := by decide
    have e2 : ("01" : String) = ⟨['0', '1']⟩ := by decide
    rw [e1, e2]
    exact h.1 '1' (by decide)
  · have e1 : ("01" : String) = ⟨['0', '1']⟩ := by decide
    rw [e1]
    exact h.2.1 '0' '1' (by decide) (by decide)

/-! ## Claim C4 -/

/-- C4, counterexample.  User u2 has an attendance record for the day whose
breakfast slot is absent; the claim says an absent slot within an existing
record defaults to eating, but getUserMeals treats the absent slot as falsy
and leaves breakfast out of the attending list. -/
theorem claim4_counterexample :
    alistLookup c4doc.attendance "u2" = some ⟨none, some true, some true⟩ ∧
    c4doc.breakfast = some sampleItem ∧
    (⟨"2026-02-01", "Breakfast", sampleItem⟩ : PlateEntry) ∉
      (getUserMeals [("01", c4doc)] "2026-02-15" "u2").2 := by
  decide

/-- C4, amended.  In getUserMeals, for every user and day document: if the
user has no attendance record for the day, every slot whose meal item is
present is included in the attending list; if the user has a record, a slot
is included when it is explicitly true (and its item present), and a slot
whose recorded value is anything other than explicitly true - explicitly
false or absent within the record - contributes nothing for that day. -/
theorem claim4_theorem (s : Store) (today userId k : String) (m : MealDoc)
    (hk : (k, m) ∈ s) :
    (alistLookup m.attendance userId = none →
      ∀ (slot : MSlot) (it : MealItem), slotItem m slot = some it →
        (⟨m.date, slotLabel slot, it⟩ : PlateEntry) ∈ (getUserMeals s today userId).2) ∧
    (∀ r, alistLookup m.attendance userId = some r →
      (∀ (slot : MSlot) (it : MealItem), getSlot r slot = some true →
        slotItem m slot = some it →
        (⟨m.date, slotLabel slot, it⟩ : PlateEntry) ∈ (getUserMeals s today userId).2) ∧
      (∀ (slot : MSlot) (it : MealItem), getSlot r slot ≠ some true →
        (⟨m.date, slotLabel slot, it⟩ : PlateEntry) ∉ attendingOf userId m)) := by
  have hmem : ∀ x : PlateEntry, x ∈ attendingOf userId m →
      x ∈ (getUserMeals s today userId).2 := by
    intro x hx
    show x ∈ isortEntries ((getAllMeals s).flatMap (fun e => attendingOf userId e.2))
    rw [mem_isortEntries]
    exact List.mem_flatMap.mpr ⟨(k, m), hk, hx⟩
  constructor
  · intro hnone slot it hit
    apply hmem
    unfold attendingOf
    rw [hnone]
    cases slot <;> simp only [slotItem] at hit <;>
      simp [mem_itemEntry, hit, slotLabel, List.mem_append]
  · intro r hr
    constructor
    · intro slot it htrue hit
      apply hmem
      unfold attendingOf
      rw [hr]
      cases slot <;> simp only [slotItem] at hit <;> simp only [getSlot] at htrue <;>
        simp [mem_itemEntry, hit, htrue, slotLabel, List.mem_append]
    · intro slot it hne hx
      unfold attendingOf at hx
      rw [hr] at hx
      dsimp only at hx
      cases slot with
      | breakfast =>
        simp only [getSlot] at hne
        rw [if_neg hne] at hx
        simp only [List.nil_append, List.mem_append] at hx
        rcases hx with hx | hx <;>
          rcases (mem_itemEntry _ _ _ _).mp (mem_ite_nil _ _ hx) with ⟨it', _, hx⟩ <;>
          simp [slotLabel] at hx
      | lunch =>
        simp only [getSlot] at hne
        rw [if_neg hne] at hx
        simp only [List.append_nil, List.nil_append, List.mem_append] at hx
        rcases hx with hx | hx <;>
          rcases (mem_itemEntry _ _ _ _).mp (mem_ite_nil _ _ hx) with ⟨it', _, hx⟩ <;>
          simp [slotLabel] at hx
      | dinner =>
        simp only [getSlot] at hne
        rw [if_neg hne] at hx
        simp only [List.append_nil, List.mem_append] at hx
        rcases hx with hx | hx <;>
          rcases (mem_itemEntry _ _ _ _).mp (mem_ite_nil _ _ hx) with ⟨it', _, hx⟩ <;>
          simp [slotLabel] at hx

/-- C4, witness: the theorem applied to a concrete store: a user with no
record attends every present slot, a user with a record attends an
explicitly true slot, and a slot that is absent within the record
contributes nothing. -/
theorem claim4_witness :
    (("01", c4doc) ∈ ([("01", c4doc)] : Store)) ∧
    alistLookup c4doc.attendance "u3" = none ∧
    (⟨"2026-02-01", "Breakfast", sampleItem⟩ : PlateEntry) ∈
      (getUserMeals [("01", c4doc)] "2026-02-15" "u3").2 ∧
    alistLookup c4doc.attendance "u2" = some ⟨none, some true, some true⟩ ∧
    (⟨"2026-02-01", "Lunch", sampleItem⟩ : PlateEntry) ∈
      (getUserMeals [("01", c4doc)] "2026-02-15" "u2").2 ∧
    (⟨"2026-02-01", "Breakfast", sampleItem⟩ : PlateEntry) ∉ attendingOf "u2" c4doc := by
  refine ⟨by decide, by decide, ?_, by decide, ?_, ?_⟩
  · exact (claim4_theorem [("01", c4doc)] "2026-02-15" "u3" "01" c4doc (by decide)).1
      (by decide) MSlot.breakfast sampleItem (by decide)
  · exact ((claim4_theorem [("01", c4doc)] "2026-02-15" "u2" "01" c4doc (by decide)).2
      ⟨none, some true, some true⟩ (by decide)).1 MSlot.lunch sampleItem (by decide) (by decide)
  · exact ((claim4_theorem [("01", c4doc)] "2026-02-15" "u2" "01" c4doc (by decide)).2
      ⟨none, some true, some true⟩ (by decide)).2 MSlot.breakfast sampleItem (by decide)

/-! ## Claim C5 -/

/-- C5, counterexample.  User u1 originally skips breakfast (the stored
boolean is false); toggling skip then un-skip leaves breakfast at true, so
the original boolean is not restored. -/
theorem claim5_counterexample :
    alistLookup c5doc.attendance "u1" = some ⟨some false, some true, some true⟩ ∧
    (alistLookup ((toggleMealAttendance
        (toggleMealAttendance [("05", c5doc)] "05" MSlot.breakfast "u1" true).2
        "05" MSlot.breakfast "u1" false).2) "05").map
      (fun m => alistLookup m.attendance "u1") =
      some (some ⟨some true, some true, some true⟩) ∧
    (some true : Option Bool) ≠ some false := by
  decide

/-- C5, amended.  For every existing day document, toggling skip then
un-skip succeeds twice and leaves the targeted slot explicitly true (eating),
which restores the original record exactly when the user already had a
record whose targeted slot was explicitly true; the user's sibling slots
keep the values of the record the first toggle started from (the stored
record, or the all-eating default when none existed), other users'
attendance records are untouched, and all other documents are
untouched. -/
theorem claim5_theorem (s : Store) (mealId : String) (slot : MSlot) (uid : String)
    (m : MealDoc) (hm : alistLookup s (getDayId mealId) = some m) :
    (toggleMealAttendance s mealId slot uid true).1 = true ∧
    (toggleMealAttendance (toggleMealAttendance s mealId slot uid true).2
      mealId slot uid false).1 = true ∧
    (∃ m2, alistLookup (toggleMealAttendance (toggleMealAttendance s mealId slot uid true).2
        mealId slot uid false).2 (getDayId mealId) = some m2 ∧
      alistLookup m2.attendance uid =
        some (setSlot ((alistLookup m.attendance uid).getD defaultAttRec) slot (some true)) ∧
      (∀ sl, sl ≠ slot →
        getSlot (setSlot ((alistLookup m.attendance uid).getD defaultAttRec) slot (some true)) sl =
          getSlot ((alistLookup m.attendance uid).getD defaultAttRec) sl) ∧
      (∀ u, u ≠ uid → alistLookup m2.attendance u = alistLookup m.attendance u) ∧
      m2.date = m.date ∧ m2.responsibility = m.responsibility) ∧
    (∀ k, k ≠ getDayId mealId →
      alistLookup (toggleMealAttendance (toggleMealAttendance s mealId slot uid true).2
        mealId slot uid false).2 k = alistLookup s k) ∧
    (∀ r, alistLookup m.attendance uid = some r → getSlot r slot = some true →
      (toggleMealAttendance (toggleMealAttendance s mealId slot uid true).2
        mealId slot uid false).2 = s) := by
  set r0 := (alistLookup m.attendance uid).getD defaultAttRec with hr0
  set r1 := setSlot r0 slot (some false) with hr1def
  set m1 : MealDoc := { m with attendance := alistSet m.attendance uid r1 } with hm1
  have h1 : toggleMealAttendance s mealId slot uid true = (true, alistSet s (getDayId mealId) m1) := by
    rw [hm1, hr1def, hr0]
    simp [toggleMealAttendance, hm]
  have hl1 : alistLookup (alistSet s (getDayId mealId) m1) (getDayId mealId) = some m1 :=
    alistLookup_set_self s (getDayId mealId) m1
  have hratt : alistLookup m1.attendance uid = some r1 := by
    rw [hm1]
    exact alistLookup_set_self m.attendance uid r1
  set r2 := setSlot r1 slot (some true) with hr2def
  have hr2 : r2 = setSlot r0 slot (some true) := by
    rw [hr2def, hr1def]
    exact setSlot_setSlot r0 slot (some false) (some true)
  set m2 : MealDoc := { m1 with attendance := alistSet m1.attendance uid r2 } with hm2
  have h2 : toggleMealAttendance (alistSet s (getDayId mealId) m1) mealId slot uid false =
      (true, alistSet (alistSet s (getDayId mealId) m1) (getDayId mealId) m2) := by
    rw [hm2, hr2def]
    simp [toggleMealAttendance, hl1, hratt]
  have hstore : (toggleMealAttendance (toggleMealAttendance s mealId slot uid true).2
      mealId slot uid false).2 = alistSet s (getDayId mealId) m2 := by
    rw [h1]
    show (toggleMealAttendance (alistSet s (getDayId mealId) m1) mealId slot uid false).2 =
      alistSet s (getDayId mealId) m2
    rw [h2]
    exact alistSet_set s (getDayId mealId) m1 m2
  have hatt2 : m2.attendance = alistSet m.attendance uid r2 := by
    rw [hm2, hm1]
    exact alistSet_set m.attendance uid r1 r2
  refine ⟨by rw [h1], ?_, ?_, ?_, ?_⟩
  · rw [h1]
    show (toggleMealAttendance (alistSet s (getDayId mealId) m1) mealId slot uid false).1 = true
    rw [h2]
  · refine ⟨m2, ?_, ?_, ?_, ?_, ?_, ?_⟩
    · rw [hstore]
      exact alistLookup_set_self s (getDayId mealId) m2
    · rw [hatt2, ← hr2]
      exact alistLookup_set_self m.attendance uid r2
    · intro sl hsl
      exact getSlot_setSlot_other r0 slot sl (some true) hsl
    · intro u hu
      rw [hatt2]
      exact alistLookup_set_other m.attendance uid u r2 hu
    · rw [hm2, hm1]
    · rw [hm2, hm1]
  · intro k hk
    rw [hstore]
    exact alistLookup_set_other s (getDayId mealId) k m2 hk
  · intro r hr htrue
    have hr0r : r0 = r := by rw [hr0, hr]; rfl
    have hr2r : r2 = r := by
      rw [hr2, hr0r]
      exact setSlot_eq_self r slot (some true) htrue
    have hattm : m2.attendance = m.attendance := by
      rw [hatt2, hr2r]
      exact alistSet_eq_self m.attendance uid r hr
    have hm2m : m2 = m := by
      have he : m2 = { m with attendance := m2.attendance } := by
        rw [hm2, hm1]
      rw [he, hattm]
    rw [hstore, hm2m]
    exact alistSet_eq_self s (getDayId mealId) m hm

/-- C5, witness: the theorem applied to a store holding one document where
user u1 eats breakfast (explicitly true): the skip/un-skip pair restores the
store exactly. -/
theorem claim5_witness :
    alistLookup [("05", c4doc)] (getDayId "05") = some c4doc ∧
    alistLookup c4doc.attendance "u2" = some ⟨none, some true, some true⟩ ∧
    getSlot (⟨none, some true, some true⟩ : AttRec) MSlot.lunch = some true ∧
    (toggleMealAttendance (toggleMealAttendance [("05", c4doc)] "05" MSlot.lunch "u2" true).2
      "05" MSlot.lunch "u2" false).2 = [("05", c4doc)] :=
  ⟨by decide, by decide, by decide,
    (claim5_theorem [("05", c4doc)] "05" MSlot.lunch "u2" c4doc (by decide)).2.2.2.2
      ⟨none, some true, some true⟩ (by decide) (by decide)⟩

/-! ## Claim C9 -/

theorem jsOrNull_ne_empty (v : String) : jsOrNull v ≠ some "" := by
  unfold jsOrNull
  split
  · simp
  · rename_i h
    simp [h]

theorem commitBatch_respOk (ops : List BatchOp) :
    ∀ s t : Store, (∀ op ∈ ops, respSafeOp op) → respOkStore s →
      commitBatch s ops = some t → respOkStore t := by
  induction ops with
  | nil =>
    intro s t _ hs h
    simp only [commitBatch, Option.some.injEq] at h
    rw [← h]
    exact hs
  | cons op rest ih =>
    intro s t hops hs h
    simp only [commitBatch] at h
    cases happ : applyOp s op with
    | none => rw [happ] at h; exact absurd h (by simp)
    | some s' =>
      rw [happ] at h
      have hsafe := hops op (by simp)
      refine ih s' t (fun o ho => hops o (by simp [ho])) ?_ h
      intro e he
      cases op with
      | set k c =>
        simp only [applyOp, Option.some.injEq] at happ
        rw [← happ] at he
        rcases mem_alistSet s k c e he with h1 | h1
        · rw [h1]; exact hsafe
        · exact hs e h1
      | updateFull k c =>
        simp only [applyOp] at happ
        cases hl : alistLookup s k with
        | none => rw [hl] at happ; exact absurd happ (by simp)
        | some m =>
          rw [hl] at happ
          simp only [Option.some.injEq] at happ
          rw [← happ] at he
          rcases mem_alistSet s k c e he with h1 | h1
          · rw [h1]; exact hsafe
          · exact hs e h1
      | updateResp k bl dn =>
        simp only [applyOp] at happ
        cases hl : alistLookup s k with
        | none => rw [hl] at happ; exact absurd happ (by simp)
        | some m =>
          rw [hl] at happ
          simp only [Option.some.injEq] at happ
          rw [← happ] at he
          rcases mem_alistSet s k _ e he with h1 | h1
          · rw [h1]
            have hm := hs (k, m) (alistLookup_mem s k m hl)
            simp only [respSafeOp] at hsafe
            constructor
            · cases hbl : bl with
              | none => simpa [patchField, hbl] using hm.1
              | some v => simpa [patchField, hbl] using hsafe.1 v hbl
            · cases hdn : dn with
              | none => simpa [patchField, hdn] using hm.2
              | some v => simpa [patchField, hdn] using hsafe.2 v hdn
          · exact hs e h1
      | delete k =>
        simp only [applyOp, Option.some.injEq] at happ
        rw [← happ] at he
        exact hs e (mem_eraseKey s k e he).1

/-- C9.  After every responsibility-writing operation - assignResponsibility
with any userId including null or the empty string, and
bulkAssignResponsibility with any updates - no stored responsibility field
is the empty string: each field in every document is either a non-empty
identifier or null. -/
theorem claim9_theorem :
    (∀ (s : Store) (mealId : String) (slot : RSlot) (userId : Option String),
      respOkStore s → respOkStore (updateMealResponsibility s mealId slot userId).2) ∧
    (∀ (s : Store) (dates : List String) (u : RespUpdates),
      respOkStore s → respOkStore (bulkUpdateMealResponsibility s dates u).2) := by
  constructor
  · intro s mealId slot userId hs
    unfold updateMealResponsibility
    dsimp only
    cases hl : alistLookup s (getDayId mealId) with
    | none => exact hs
    | some m =>
      dsimp only
      intro e he
      rcases mem_alistSet s (getDayId mealId) _ e he with h1 | h1
      · rw [h1]
        clear he h1
        have hm := hs (getDayId mealId, m) (alistLookup_mem s _ m hl)
        have hv : (match userId with
            | none => none
            | some u => jsOrNull u) ≠ some ("" : String) := by
          cases userId with
          | none => simp
          | some u => simpa using jsOrNull_ne_empty u
        cases slot with
        | breakfastLunchId => exact ⟨hv, hm.2⟩
        | dinnerId => exact ⟨hm.1, hv⟩
      · exact hs e h1
  · intro s dates u hs
    unfold bulkUpdateMealResponsibility
    dsimp only
    split
    · exact hs
    · cases hc : commitBatch s (dates.flatMap (bulkItem u)) with
      | none => exact hs
      | some t =>
        dsimp only
        refine commitBatch_respOk (dates.flatMap (bulkItem u)) s t ?_ hs hc
        intro op hop
        rcases List.mem_flatMap.mp hop with ⟨ds, _, hin⟩
        unfold bulkItem at hin
        split at hin
        · simp at hin
        · simp only [List.mem_singleton] at hin
          rw [hin]
          refine ⟨?_, ?_⟩
          · intro v hv
            rcases Option.map_eq_some'.mp hv with ⟨w, _, hveq⟩
            rw [← hveq]
            exact jsOrNull_ne_empty w
          · intro v hv
            rcases Option.map_eq_some'.mp hv with ⟨w, _, hveq⟩
            rw [← hveq]
            exact jsOrNull_ne_empty w

/-- C9, witness: the invariant holds after assigning the empty string (which
is stored as null) and after a bulk update carrying an empty string, on a
store that satisfied it. -/
theorem claim9_witness :
    respOkStore [("05", c4doc)] ∧
    respOkStore (updateMealResponsibility [("05", c4doc)] "05" RSlot.breakfastLunchId (some "")).2 ∧
    respOkStore (bulkUpdateMealResponsibility [("05", c4doc)] ["05"] ⟨some "", some "u1"⟩).2 := by
  have hs : respOkStore [("05", c4doc)] := by
    intro e he
    simp only [List.mem_singleton] at he
    rw [he]
    exact ⟨by decide, by decide⟩
  exact ⟨hs, claim9_theorem.1 [("05", c4doc)] "05" RSlot.breakfastLunchId (some "") hs,
    claim9_theorem.2 [("05", c4doc)] ["05"] ⟨some "", some "u1"⟩ hs⟩

/-! ## Migration lemmas for claim C2 -/

theorem jsMakeDate_valid (cy cm d : Nat)
    (hd : d ≤ daysInMonth (cy + cm / 12) (cm % 12 + 1)) :
    jsMakeDate cy cm d = (cy + cm / 12, cm % 12 + 1, d) := by
  unfold jsMakeDate
  dsimp only
  rw [if_pos hd]

theorem migItem_eq_of_valid (cy cm : Nat) (now : Int) (k : String) (m : MealDoc)
    (y mo d : Nat) (hp : jsParseDateChars (m.date.data ++ isoMidnight) = some (y, mo, d))
    (hd : d ≤ daysInMonth (cy + cm / 12) (cm % 12 + 1)) :
    migItem cy cm now (k, m) =
      if k = (⟨padStart2 (natChars d)⟩ : String) then
        [BatchOp.updateFull ⟨padStart2 (natChars d)⟩ (migClean cy cm now m d)]
      else
        [BatchOp.delete k, BatchOp.set ⟨padStart2 (natChars d)⟩ (migClean cy cm now m d)] := by
  unfold migItem
  dsimp only
  rw [hp]
  dsimp only
  rw [jsMakeDate_valid cy cm d hd]
  rfl

theorem migItem_canon (cy cm : Nat) (now : Int) (k : String) (m : MealDoc)
    (hy : cy + cm / 12 < 10000) (hc : canonEntry cy cm (k, m)) :
    ∃ c : MealDoc, migItem cy cm now (k, m) = [BatchOp.updateFull k c] ∧ c.date = m.date := by
  obtain ⟨d, hd1, hd2, hk, hdate⟩ := hc
  simp only at hk hdate
  have hp : jsParseDateChars (m.date.data ++ isoMidnight) =
      some (cy + cm / 12, cm % 12 + 1, d) := by
    rw [hdate]
    exact jsParseDate_iso _ _ _ isoMidnight hy (by omega) (by omega) hd1 hd2
      timeTailOk_isoMidnight
  refine ⟨migClean cy cm now m d, ?_, ?_⟩
  · rw [migItem_eq_of_valid cy cm now k m _ _ d hp hd2, if_pos hk, hk]
  · rw [hdate]
    rfl

theorem commitBatch_isSome (ops : List BatchOp) :
    ∀ s : Store,
      (∀ k c, BatchOp.updateFull k c ∈ ops →
        (alistLookup s k).isSome = true ∧ BatchOp.delete k ∉ ops) →
      (∀ k bl dn, BatchOp.updateResp k bl dn ∉ ops) →
      ∃ t, commitBatch s ops = some t := by
  induction ops with
  | nil => intro s _ _; exact ⟨s, rfl⟩
  | cons op rest ih =>
    intro s hup hresp
    cases op with
    | set k' c' =>
      simp only [commitBatch, applyOp]
      apply ih
      · intro k c hin
        have h := hup k c (by simp [hin])
        refine ⟨?_, fun hd => h.2 (by simp [hd])⟩
        by_cases hk : k = k'
        · rw [hk, alistLookup_set_self]
          rfl
        · rw [alistLookup_set_other s k' k c' hk]
          exact h.1
      · intro k bl dn hd
        exact hresp k bl dn (by simp [hd])
    | delete k' =>
      simp only [commitBatch, applyOp]
      apply ih
      · intro k c hin
        have h := hup k c (by simp [hin])
        have hk : k ≠ k' := by
          intro he
          exact h.2 (by simp [he])
        refine ⟨?_, fun hd => h.2 (by simp [hd])⟩
        rw [alistLookup_eraseKey_other s k' k hk]
        exact h.1
      · intro k bl dn hd
        exact hresp k bl dn (by simp [hd])
    | updateFull k' c' =>
      have h := hup k' c' (by simp)
      obtain ⟨m, hm⟩ := Option.isSome_iff_exists.mp h.1
      simp only [commitBatch, applyOp]
      rw [hm]
      apply ih
      · intro k c hin
        have h2 := hup k c (by simp [hin])
        refine ⟨?_, fun hd => h2.2 (by simp [hd])⟩
        by_cases hk : k = k'
        · rw [hk, alistLookup_set_self]
          rfl
        · rw [alistLookup_set_other s k' k c' hk]
          exact h2.1
      · intro k bl dn hd
        exact hresp k bl dn (by simp [hd])
    | updateResp k' bl dn =>
      exact absurd (List.mem_cons_self _ _) (hresp k' bl dn)

theorem migrate_commit_some (cy cm : Nat) (now : Int) (s : Store)
    (hnd : (s.map Prod.fst).Nodup)
    (hval : ∀ e ∈ s, validEntry cy cm e) :
    ∃ t, commitBatch s (migOps cy cm now s).1 = some t := by
  apply commitBatch_isSome
  · intro k c hin
    rcases List.mem_flatMap.mp hin with ⟨e, he, hitem⟩
    obtain ⟨k', m⟩ := e
    obtain ⟨y, mo, d, hp, hd⟩ := hval (k', m) he
    rw [migItem_eq_of_valid cy cm now k' m y mo d hp hd] at hitem
    split at hitem
    · rename_i heq
      simp only [List.mem_singleton, BatchOp.updateFull.injEq] at hitem
      have hkk : k = k' := hitem.1.trans heq.symm
      constructor
      · rw [hkk]
        exact mem_alistLookup_isSome s k' m he
      · intro hdel
        rcases List.mem_flatMap.mp hdel with ⟨e2, he2, hitem2⟩
        obtain ⟨k2, m2⟩ := e2
        obtain ⟨y2, mo2, d2, hp2, hd2⟩ := hval (k2, m2) he2
        rw [migItem_eq_of_valid cy cm now k2 m2 y2 mo2 d2 hp2 hd2] at hitem2
        split at hitem2
        · simp at hitem2
        · rename_i hne2
          simp only [List.mem_cons, List.mem_singleton] at hitem2
          rcases hitem2 with h2 | h2
          · injection h2 with hk2
            -- the deleted key equals the updated key: both entries of s share it
            have hkeys : k2 = k' := by rw [← hk2, hkk]
            have hmm : m2 = m := alistLookup_unique s k' m2 m hnd (hkeys ▸ he2) he
            rw [hkeys, hmm, hp] at hp2
            have hdd : d2 = d := by
              simp only [Option.some.injEq, Prod.mk.injEq] at hp2
              exact hp2.2.2.symm
            rw [hkeys, hdd] at hne2
            exact hne2 heq
          · simp at h2
    · simp at hitem
  · intro k bl dn hin
    rcases List.mem_flatMap.mp hin with ⟨e, he, hitem⟩
    obtain ⟨k', m⟩ := e
    obtain ⟨y, mo, d, hp, hd⟩ := hval (k', m) he
    rw [migItem_eq_of_valid cy cm now k' m y mo d hp hd] at hitem
    split at hitem <;> simp at hitem

theorem migrate_canon (cy cm : Nat) (now : Int) (s t : Store)
    (hnd : (s.map Prod.fst).Nodup)
    (hval : ∀ e ∈ s, validEntry cy cm e)
    (hc : commitBatch s (migOps cy cm now s).1 = some t) :
    ∀ e ∈ t, canonEntry cy cm e := by
  refine commitBatch_canon (canonEntry cy cm) (migOps cy cm now s).1 s t hnd ?_ ?_ hc
  · intro op hop
    rcases List.mem_flatMap.mp hop with ⟨e, he, hitem⟩
    obtain ⟨k', m⟩ := e
    obtain ⟨y, mo, d, hp, hd⟩ := hval (k', m) he
    have hd1 : 1 ≤ d := by
      have hv := jsParseDate_valid _ _ _ _ hp
      exact hv.2.2.2.1
    rw [migItem_eq_of_valid cy cm now k' m y mo d hp hd] at hitem
    have hcanon : canonEntry cy cm
        ((⟨padStart2 (natChars d)⟩ : String), migClean cy cm now m d) :=
      ⟨d, hd1, hd, rfl, rfl⟩
    split at hitem
    · simp only [List.mem_singleton] at hitem
      rw [hitem]
      exact hcanon
    · simp only [List.mem_cons, List.mem_singleton] at hitem
      rcases hitem with h1 | h1 | h1
      · rw [h1]; trivial
      · rw [h1]; exact hcanon
      · simp at h1
  · intro e he
    obtain ⟨k', m⟩ := e
    obtain ⟨y, mo, d, hp, hd⟩ := hval (k', m) he
    by_cases hk : k' = (⟨padStart2 (natChars d)⟩ : String)
    · refine Or.inr ⟨BatchOp.updateFull (⟨padStart2 (natChars d)⟩ : String) (migClean cy cm now m d),
        List.mem_flatMap.mpr ⟨(k', m), he, ?_⟩, ?_⟩
      · rw [migItem_eq_of_valid cy cm now k' m y mo d hp hd, if_pos hk]
        simp
      · exact Or.inl ⟨migClean cy cm now m d, by rw [hk]⟩
    · refine Or.inr ⟨BatchOp.delete k', List.mem_flatMap.mpr ⟨(k', m), he, ?_⟩, Or.inr rfl⟩
      rw [migItem_eq_of_valid cy cm now k' m y mo d hp hd, if_neg hk]
      simp

theorem commit_selfupdates (cy cm : Nat) (now : Int) :
    ∀ t : Store, (t.map Prod.fst).Nodup → cy + cm / 12 < 10000 →
      (∀ e ∈ t, canonEntry cy cm e) →
      ∃ t2, commitBatch t (t.flatMap (migItem cy cm now)) = some t2 ∧
        keysDates t2 = keysDates t := by
  intro t
  induction t with
  | nil => intro _ _ _; exact ⟨[], rfl, rfl⟩
  | cons e rest ih =>
    intro hnd hy hcanon
    obtain ⟨k, m⟩ := e
    obtain ⟨c, hitem, hdate⟩ := migItem_canon cy cm now k m hy (hcanon (k, m) (by simp))
    simp only [List.map_cons, List.nodup_cons] at hnd
    have hkeys : ∀ op ∈ rest.flatMap (migItem cy cm now), opKey op ≠ k := by
      intro op hop
      rcases List.mem_flatMap.mp hop with ⟨e2, he2, hitem2⟩
      obtain ⟨k2, m2⟩ := e2
      obtain ⟨c2, hitem2eq, _⟩ := migItem_canon cy cm now k2 m2 hy
        (hcanon (k2, m2) (by simp [he2]))
      rw [hitem2eq] at hitem2
      simp only [List.mem_singleton] at hitem2
      rw [hitem2]
      intro hkk
      simp only [opKey] at hkk
      exact hnd.1 (List.mem_map.mpr ⟨(k2, m2), he2, hkk⟩)
    obtain ⟨t2, hc2, hkd2⟩ := ih hnd.2 hy (fun e2 he2 => hcanon e2 (by simp [he2]))
    refine ⟨(k, c) :: t2, ?_, ?_⟩
    · show commitBatch ((k, m) :: rest) (((k, m) :: rest).flatMap (migItem cy cm now)) =
        some ((k, c) :: t2)
      rw [List.flatMap_cons, hitem]
      show commitBatch ((k, m) :: rest)
        (BatchOp.updateFull k c :: rest.flatMap (migItem cy cm now)) = some ((k, c) :: t2)
      have happly : applyOp ((k, m) :: rest) (BatchOp.updateFull k c) = some ((k, c) :: rest) := by
        simp [applyOp, alistLookup, alistSet]
      simp only [commitBatch]
      rw [happly]
      show commitBatch ((k, c) :: rest) (rest.flatMap (migItem cy cm now)) =
        some ((k, c) :: t2)
      rw [commitBatch_cons_untouched k c (rest.flatMap (migItem cy cm now)) rest hkeys]
      rw [hc2]
      rfl
    · simp only [keysDates, List.map_cons]
      rw [hdate]
      exact congrArg (List.cons (k, m.date)) hkd2

theorem migrate_fix (cy cm : Nat) (now : Int) (t : Store)
    (hy : cy + cm / 12 < 10000) (hnd : (t.map Prod.fst).Nodup)
    (hcanon : ∀ e ∈ t, canonEntry cy cm e) :
    keysDates (updateMealDatesToCurrentMonth cy cm now t).2 = keysDates t := by
  cases t with
  | nil => rfl
  | cons e rest =>
    obtain ⟨t2, hc, hkd⟩ := commit_selfupdates cy cm now (e :: rest) hnd hy hcanon
    unfold updateMealDatesToCurrentMonth getAllMeals
    rw [if_neg (by simp)]
    show keysDates (match commitBatch (e :: rest)
        (migOps cy cm now (e :: rest)).1 with
      | some t => ((⟨true, (migOps cy cm now (e :: rest)).2, none⟩ : BulkResult), t)
      | none => (⟨false, 0, some "Unknown error occurred"⟩, e :: rest)).2 = keysDates (e :: rest)
    have hops : (migOps cy cm now (e :: rest)).1 = (e :: rest).flatMap (migItem cy cm now) := rfl
    rw [hops, hc]
    exact hkd

/-! ## Claim C2 -/

/-- C2, counterexample.  A store holding the single document of the C1
scenario (date 2025-01-31, a day February lacks) migrated twice during
February 2026: the first call moves it to key 31 with date 2026-03-03, the
second call moves it again to key 03 with date 2026-02-03, so the document
set is not unchanged after the second call. -/
theorem claim2_counterexample :
    keysDates (updateMealDatesToCurrentMonth 2026 1 888
        (updateMealDatesToCurrentMonth 2026 1 777 [("2025-01-31", migDoc)]).2).2 ≠
      keysDates (updateMealDatesToCurrentMonth 2026 1 777 [("2025-01-31", migDoc)]).2 := by
  decide

/-- C2, amended.  Provided every stored document has a parseable date whose
day-of-month is a valid day of the month the run targets (and the store has
no duplicate ids and the target year is below 10000), calling
migrateToCurrentMonth twice in immediate succession within the same month
leaves the document set unchanged after the second call: every document
keeps its key and its date field, and only updated_at may advance. -/
theorem claim2_theorem (cy cm : Nat) (t1 t2 : Int) (s : Store)
    (hy : cy + cm / 12 < 10000)
    (hnd : (s.map Prod.fst).Nodup)
    (hval : ∀ e ∈ s, validEntry cy cm e) :
    keysDates (updateMealDatesToCurrentMonth cy cm t2
        (updateMealDatesToCurrentMonth cy cm t1 s).2).2 =
      keysDates (updateMealDatesToCurrentMonth cy cm t1 s).2 := by
  cases s with
  | nil => rfl
  | cons e rest =>
    obtain ⟨t, hct⟩ := migrate_commit_some cy cm t1 (e :: rest) hnd hval
    have hsnd : (updateMealDatesToCurrentMonth cy cm t1 (e :: rest)).2 = t := by
      unfold updateMealDatesToCurrentMonth getAllMeals
      rw [if_neg (by simp)]
      rw [hct]
    have hcanon := migrate_canon cy cm t1 (e :: rest) t hnd hval hct
    have hndt := commitBatch_nodup (migOps cy cm t1 (e :: rest)).1 (e :: rest) t hct hnd
    rw [hsnd]
    exact migrate_fix cy cm t2 t hy hndt hcanon

/-- C2, witness: the theorem applied to a store holding one valid document
(id 05, date 2026-02-05) migrated twice during February 2026. -/
theorem claim2_witness :
    2026 + 1 / 12 < 10000 ∧
    (([("05", c2wDoc)] : Store).map Prod.fst).Nodup ∧
    (∀ e ∈ ([("05", c2wDoc)] : Store), validEntry 2026 1 e) ∧
    keysDates (updateMealDatesToCurrentMonth 2026 1 888
        (updateMealDatesToCurrentMonth 2026 1 777 [("05", c2wDoc)]).2).2 =
      keysDates (updateMealDatesToCurrentMonth 2026 1 777 [("05", c2wDoc)]).2 := by
  have hval : ∀ e ∈ ([("05", c2wDoc)] : Store), validEntry 2026 1 e := by
    intro e he
    simp only [List.mem_singleton] at he
    rw [he]
    exact ⟨2026, 2, 5, by decide, by decide⟩
  exact ⟨by norm_num, by decide, hval,
    claim2_theorem 2026 1 777 888 [("05", c2wDoc)] (by norm_num) (by decide) hval⟩

end WhatToCook
